import Mathlib

/-!
Verification development for the sapiens-blender extension
(src/sapiens-blender/__init__.py).

The addon is modelled by a shallow embedding:
  - Python strings that undergo character-level processing (object and
    material names) are `List Char`; fixed tags compared only for equality
    (node types, object types) are `String`.
  - Blender floats are modelled as rationals.
  - The scene graph is explicit state (lists of records) passed through the
    operator bodies; `bpy.ops.export_scene.gltf` is an external exporter and
    does not mutate the modelled scene fields, so it appears as the identity
    on the state (the export path it receives is recorded where a claim
    needs it).
  - Python dicts are association lists with insert-or-replace-in-place
    semantics, matching insertion-ordered dicts.
-/

set_option autoImplicit false

namespace SapiensBlender

/-- Floor of a rational, written with integer floor division so that it is
kernel-reducible. -/
def qfloor (q : ℚ) : ℤ := Int.fdiv q.num (q.den : ℤ)

/-- Python round to 3 decimal places: round half to even on the scaled value.
`rhe q` is the integer nearest to `q`, ties going to the even integer. -/
def rhe (q : ℚ) : ℤ :=
  let f : ℤ := qfloor q
  let frac : ℚ := q - f
  if frac < 1/2 then f
  else if 1/2 < frac then f + 1
  else if f % 2 = 0 then f else f + 1

/-- Model of Python `round(x, 3)` on rationals. -/
def round3 (q : ℚ) : ℚ := (rhe (q * 1000) : ℚ) / 1000

/-- A flat JSON material record, as read or written by `MaterialFile`.
Fields are optional because `json_to_material` reads them with
`data.get(key, default)`. -/
structure MatJson where
  identifier : Option (List Char)
  color : Option (List ℚ)
  metal : Option ℚ
  roughness : Option ℚ
  deriving DecidableEq, Repr

/-- A shader node.  Only a Principled BSDF uses the three input fields; they
carry the default input values of a freshly created node otherwise. -/
structure ShaderNode where
  ntype : String
  location : ℚ × ℚ := (0, 0)
  baseColor : List ℚ := [4/5, 4/5, 4/5, 1]
  metallic : ℚ := 0
  roughness : ℚ := 1/2
  deriving DecidableEq, Repr

/-- A Blender material: name, `use_nodes` flag, node tree.  Links are kept as
pairs of socket names (output socket, input socket). -/
structure Material where
  name : List Char
  use_nodes : Bool
  nodes : List ShaderNode
  links : List (String × String) := []
  deriving DecidableEq, Repr

/-- Model of `bpy.data.materials.get(name)` over a list of materials. -/
def bpy_materials_get (db : List Material) (name : List Char) : Option Material :=
  db.find? (fun m => m.name == name)

/-- Embedding of `MaterialFile.material_to_json`: find the first node of type
BSDF_PRINCIPLED (only when `use_nodes` is set), and emit the flat record with
each value rounded to 3 decimal places; `none` models the `return None`
branch. -/
def material_to_json (material : Material) : Option MatJson :=
  let bsdf : Option ShaderNode :=
    if material.use_nodes then
      material.nodes.find? (fun node => node.ntype == "BSDF_PRINCIPLED")
    else none
  match bsdf with
  | none => none
  | some b =>
      some { identifier := some material.name
             color := some ((b.baseColor.take 3).map round3)
             metal := some (round3 b.metallic)
             roughness := some (round3 b.roughness) }

/-- Embedding of `MaterialFile.json_to_material`: read the record fields with
their defaults, get or create the material, clear the node tree, and rebuild
an output node and a Principled BSDF node carrying the record values with
alpha fixed at 1.0.  The material database stands for `bpy.data.materials`. -/
def json_to_material (db : List Material) (data : MatJson) : Material :=
  let name := data.identifier.getD ("Material".data)
  let color := data.color.getD [1, 1, 1]
  let metal := data.metal.getD 0
  let roughness := data.roughness.getD (1/2)
  let material :=
    match bpy_materials_get db name with
    | some m => m
    | none => { name := name, use_nodes := true, nodes := [] }
  let output_node : ShaderNode := { ntype := "OUTPUT_MATERIAL", location := (300, 0) }
  let bsdf_node : ShaderNode :=
    { ntype := "BSDF_PRINCIPLED"
      location := (0, 0)
      baseColor := color ++ [1]
      metallic := metal
      roughness := roughness }
  { material with
      nodes := [output_node, bsdf_node]
      links := [("BSDF", "Surface")] }

/-- Embedding of `SAPIENS_OT_export_parts.get_model_name`: strip at the first
"." if present, then at the first "_" if present. -/
def get_model_name (mesh_name : List Char) : List Char :=
  let n1 := if '.' ∈ mesh_name then mesh_name.takeWhile (fun c => !(c == '.')) else mesh_name
  if '_' ∈ n1 then n1.takeWhile (fun c => !(c == '_')) else n1

theorem qfloor_intCast (k : ℤ) : qfloor (k : ℚ) = k := by
  unfold qfloor
  rw [Rat.num_intCast, Rat.den_intCast]
  simp [Int.fdiv_one]

theorem rhe_intCast (k : ℤ) : rhe (k : ℚ) = k := by
  unfold rhe
  rw [qfloor_intCast]
  simp

/-- Rationals with denominator dividing 1000 are fixed points of `round3`;
these are exactly the values already rounded to 3 decimal places. -/
theorem round3_thousandths (k : ℤ) : round3 ((k : ℚ) / 1000) = (k : ℚ) / 1000 := by
  unfold round3
  rw [div_mul_cancel₀ _ (by norm_num : (1000:ℚ) ≠ 0), rhe_intCast]

theorem takeWhile_and (p q : Char → Bool) :
    ∀ (s : List Char), (s.takeWhile p).takeWhile q = s.takeWhile (fun x => p x && q x)
  | [] => rfl
  | c :: s => by
    by_cases hp : p c
    · by_cases hq : q c
      · simp [List.takeWhile_cons, hp, hq, takeWhile_and p q s]
      · simp [List.takeWhile_cons, hp, hq]
    · simp [List.takeWhile_cons, hp]

theorem if_mem_takeWhile (c : Char) (s : List Char) :
    (if c ∈ s then s.takeWhile (fun x => !(x == c)) else s)
      = s.takeWhile (fun x => !(x == c)) := by
  by_cases h : c ∈ s
  · simp [h]
  · rw [if_neg h, List.takeWhile_eq_self_iff.mpr]
    intro x hx
    have hne : x ≠ c := fun e => h (e ▸ hx)
    simp [hne]

/-- C2: `get_model_name` returns the prefix of the name up to (excluding) the
first occurrence of "." or "_", and the result contains neither "." nor "_". -/
theorem get_model_name_spec (s : List Char) :
    get_model_name s = s.takeWhile (fun c => !(c == '.') && !(c == '_')) ∧
    '.' ∉ get_model_name s ∧ '_' ∉ get_model_name s := by
  have h1 : get_model_name s = s.takeWhile (fun c => !(c == '.') && !(c == '_')) := by
    unfold get_model_name
    rw [if_mem_takeWhile, if_mem_takeWhile, takeWhile_and]
  refine ⟨h1, ?_, ?_⟩
  · intro hmem
    rw [h1] at hmem
    have := List.mem_takeWhile_imp hmem
    simp at this
  · intro hmem
    rw [h1] at hmem
    have := List.mem_takeWhile_imp hmem
    simp at this

/-- C1: the JSON material mapping round-trips: a record with an identifier,
a 3-component color and values already rounded to 3 decimal places is
reproduced exactly by `material_to_json` after `json_to_material`, provided
a pre-existing material of that name (if any) has its node tree enabled. -/
theorem json_material_roundtrip (db : List Material) (data : MatJson) (nm : List Char)
    (r g b mv rv : ℚ)
    (hid : data.identifier = some nm)
    (hc : data.color = some [r, g, b])
    (hm : data.metal = some mv)
    (hrg : data.roughness = some rv)
    (h1 : round3 r = r) (h2 : round3 g = g) (h3 : round3 b = b)
    (h4 : round3 mv = mv) (h5 : round3 rv = rv)
    (hdb : ∀ m, bpy_materials_get db nm = some m → m.use_nodes = true) :
    material_to_json (json_to_material db data) = some data := by
  obtain ⟨di, dc, dm, dr⟩ := data
  simp only at hid hc hm hrg
  subst hid hc hm hrg
  unfold json_to_material
  simp only [Option.getD_some]
  cases hfind : bpy_materials_get db nm with
  | none =>
    unfold material_to_json
    simp [List.find?, h1, h2, h3, h4, h5]
  | some m =>
    have huse := hdb m hfind
    have hname : m.name = nm := by
      have hp := List.find?_some hfind
      simpa using hp
    unfold material_to_json
    simp [List.find?, huse, hname, h1, h2, h3, h4, h5]

/-- Witness for C1: the round trip at a concrete record over an empty
material database. -/
theorem json_material_roundtrip_witness :
    material_to_json (json_to_material []
      { identifier := some ("wood".data)
        color := some [((500:ℤ):ℚ)/1000, ((250:ℤ):ℚ)/1000, ((0:ℤ):ℚ)/1000]
        metal := some (((1000:ℤ):ℚ)/1000)
        roughness := some (((300:ℤ):ℚ)/1000) })
      = some { identifier := some ("wood".data)
               color := some [((500:ℤ):ℚ)/1000, ((250:ℤ):ℚ)/1000, ((0:ℤ):ℚ)/1000]
               metal := some (((1000:ℤ):ℚ)/1000)
               roughness := some (((300:ℤ):ℚ)/1000) } :=
  json_material_roundtrip [] _ ("wood".data) _ _ _ _ _ rfl rfl rfl rfl
    (round3_thousandths 500) (round3_thousandths 250) (round3_thousandths 0)
    (round3_thousandths 1000) (round3_thousandths 300)
    (by intro m hm; simp [bpy_materials_get] at hm)

theorem find?_skip_prefix {α : Type} (p : α → Bool) (b : α) (hb : p b = true) :
    ∀ (pre l : List α), (∀ n ∈ pre, p n = false) → (pre ++ b :: l).find? p = some b
  | [], l, _ => by simp [List.find?, hb]
  | a :: rest, l, h => by
    have ha : p a = false := h a (List.mem_cons_self a rest)
    have ih := find?_skip_prefix p b hb rest l (fun n hn => h n (List.mem_cons_of_mem a hn))
    simp [List.find?, ha, ih]

/-- C6: with the node list split as `pre ++ b :: post` where `pre` holds no
Principled BSDF and `b` is one, `material_to_json` reads its values from `b`,
and replacing everything after `b` changes nothing. -/
theorem material_to_json_first_match (m : Material) (pre post post2 : List ShaderNode)
    (b : ShaderNode)
    (huse : m.use_nodes = true)
    (hpre : ∀ n ∈ pre, n.ntype ≠ "BSDF_PRINCIPLED")
    (hb : b.ntype = "BSDF_PRINCIPLED") :
    material_to_json { m with nodes := pre ++ b :: post }
      = some { identifier := some m.name
               color := some ((b.baseColor.take 3).map round3)
               metal := some (round3 b.metallic)
               roughness := some (round3 b.roughness) } ∧
    material_to_json { m with nodes := pre ++ b :: post }
      = material_to_json { m with nodes := pre ++ b :: post2 } := by
  have hfind : ∀ (l : List ShaderNode),
      (pre ++ b :: l).find? (fun node => node.ntype == "BSDF_PRINCIPLED") = some b := by
    intro l
    exact find?_skip_prefix _ b (by simp [hb]) pre l
      (fun n hn => by simp [hpre n hn])
  constructor
  · unfold material_to_json
    simp [huse, hfind post]
  · unfold material_to_json
    simp [huse, hfind post, hfind post2]

/-- Witness for C6 at a concrete material with two Principled BSDF nodes. -/
theorem material_to_json_first_match_witness :
    (material_to_json { name := "wood".data, use_nodes := true
                        nodes := [{ ntype := "OUTPUT_MATERIAL" },
                                  { ntype := "BSDF_PRINCIPLED", metallic := 1 },
                                  { ntype := "BSDF_PRINCIPLED", metallic := 0 }] }
      = some { identifier := some ("wood".data)
               color := some ((([4/5, 4/5, 4/5, 1] : List ℚ).take 3).map round3)
               metal := some (round3 1)
               roughness := some (round3 (1/2)) } ∧
    material_to_json { name := "wood".data, use_nodes := true
                       nodes := [{ ntype := "OUTPUT_MATERIAL" },
                                 { ntype := "BSDF_PRINCIPLED", metallic := 1 },
                                 { ntype := "BSDF_PRINCIPLED", metallic := 0 }] }
      = material_to_json { name := "wood".data, use_nodes := true
                           nodes := [{ ntype := "OUTPUT_MATERIAL" },
                                     { ntype := "BSDF_PRINCIPLED", metallic := 1 },
                                     { ntype := "BSDF_PRINCIPLED", metallic := 1/4 }] }) :=
  material_to_json_first_match
    { name := "wood".data, use_nodes := true, nodes := [] }
    [{ ntype := "OUTPUT_MATERIAL" }]
    [{ ntype := "BSDF_PRINCIPLED", metallic := 0 }]
    [{ ntype := "BSDF_PRINCIPLED", metallic := 1/4 }]
    { ntype := "BSDF_PRINCIPLED", metallic := 1 }
    rfl (by intro n hn; simp at hn; subst hn; simp) rfl

/-- C7: a material not using nodes, or whose node tree holds no Principled
BSDF, maps to no JSON record. -/
theorem material_to_json_missing_shader (m : Material)
    (h : m.use_nodes = false ∨ ∀ n ∈ m.nodes, n.ntype ≠ "BSDF_PRINCIPLED") :
    material_to_json m = none := by
  unfold material_to_json
  cases h with
  | inl h => simp [h]
  | inr h =>
    cases huse : m.use_nodes with
    | false => simp
    | true =>
      have : m.nodes.find? (fun node => node.ntype == "BSDF_PRINCIPLED") = none := by
        rw [List.find?_eq_none]
        intro n hn
        simpa using h n hn
      simp [this]

/-- Witness for C7 at a concrete material whose only node is an output node. -/
theorem material_to_json_missing_shader_witness :
    material_to_json { name := "wood".data, use_nodes := true
                       nodes := [{ ntype := "OUTPUT_MATERIAL" }] } = none :=
  material_to_json_missing_shader _
    (Or.inr (by intro n hn; simp at hn; subst hn; simp))

/-- Number of floating-point parameter values carried by a JSON material
record: the color components plus the metal and roughness fields. -/
def numFloats (d : MatJson) : Nat :=
  (d.color.getD []).length
    + (if d.metal.isSome then 1 else 0)
    + (if d.roughness.isSome then 1 else 0)

/-- A concrete material with a single default Principled BSDF node. -/
def sampleMaterial : Material :=
  { name := "wood".data
    use_nodes := true
    nodes := [{ ntype := "BSDF_PRINCIPLED" }] }

/-- Counterexample for C3: the record written for a concrete material carries
five floating-point values, not six. -/
theorem material_record_not_six_floats :
    (material_to_json sampleMaterial).map numFloats = some 5 ∧ (5 : Nat) ≠ 6 := by
  constructor
  · unfold sampleMaterial material_to_json
    simp [List.find?, numFloats]
  · decide

/-- C3 as amended: for every material whose node base colors are RGBA-like
(at least 3 components, as in Blender), the JSON record written by
`material_to_json` carries exactly five floating-point parameter values:
three color components plus metal and roughness. -/
theorem material_record_five_floats (m : Material) (rec : MatJson)
    (hwf : ∀ n ∈ m.nodes, 3 ≤ n.baseColor.length)
    (h : material_to_json m = some rec) : numFloats rec = 5 := by
  unfold material_to_json at h
  rcases hbs : (if m.use_nodes = true then
      m.nodes.find? (fun node => node.ntype == "BSDF_PRINCIPLED") else none) with _ | b
  · rw [hbs] at h
    exact absurd h (by simp)
  · rw [hbs] at h
    have hmem : b ∈ m.nodes := by
      by_cases huse : m.use_nodes = true
      · rw [if_pos huse] at hbs
        exact List.mem_of_find?_eq_some hbs
      · rw [if_neg huse] at hbs
        exact absurd hbs (by simp)
    have hlen : 3 ≤ b.baseColor.length := hwf b hmem
    have hrec : rec = { identifier := some m.name
                        color := some ((b.baseColor.take 3).map round3)
                        metal := some (round3 b.metallic)
                        roughness := some (round3 b.roughness) } := by
      cases h
      rfl
    subst hrec
    simp [numFloats, List.length_take]
    omega

/-- Witness for C3 as amended, at the same concrete material. -/
theorem material_record_five_floats_witness :
    numFloats { identifier := some ("wood".data)
                color := some ((([4/5, 4/5, 4/5, 1] : List ℚ).take 3).map round3)
                metal := some (round3 0)
                roughness := some (round3 (1/2)) } = 5 :=
  material_record_five_floats sampleMaterial _
    (by intro n hn; simp [sampleMaterial] at hn; subst hn; simp)
    (by unfold sampleMaterial material_to_json; simp [List.find?])

/-- World transform of an object: location, euler rotation, scale. -/
structure Transform where
  loc : ℚ × ℚ × ℚ
  rot : ℚ × ℚ × ℚ
  scl : ℚ × ℚ × ℚ
  deriving DecidableEq, Repr

/-- A scene object as seen by `SAPIENS_OT_export_parts`. -/
structure Obj where
  name : List Char
  otype : String
  world : Transform
  selected : Bool
  deriving DecidableEq, Repr

/-- The modelled scene: the objects of `bpy.data.objects` in order, and the
index of the active object in that list. -/
structure Scene where
  objects : List Obj
  active : Option Nat
  deriving DecidableEq, Repr

/-- Result of an operator run; `error` stands for an uncaught Python
exception. -/
inductive OpResult where
  | finished
  | cancelled
  | error
  deriving DecidableEq, Repr

/-- Model of `bpy.ops.object.select_all(action=DESELECT)`. -/
def deselect_all (objs : List Obj) : List Obj :=
  objs.map fun o => { o with selected := false }

/-- The transform assigned to a mesh before export: zero location and
rotation, unit scale. -/
def zeroTransform : Transform :=
  { loc := (0, 0, 0), rot := (0, 0, 0), scl := (1, 1, 1) }

/-- One iteration of the mesh loop in `SAPIENS_OT_export_parts.execute`:
skip non-meshes and already exported model names; otherwise deselect all,
cache the world matrix, select and activate the mesh, zero its transform,
export (external), and restore the cached matrix. -/
def export_parts_step (st : Scene × List (List Char)) (i : Nat) :
    Scene × List (List Char) :=
  let s := st.1
  let exported := st.2
  match s.objects[i]? with
  | none => st
  | some obj =>
    if obj.otype ≠ "MESH" then st
    else
      let model_name := get_model_name obj.name
      if model_name ∈ exported then st
      else
        let objs1 := deselect_all s.objects
        let cached := obj.world
        let objs2 := objs1.set i { obj with selected := true }
        let objs3 := objs2.set i { obj with selected := true, world := zeroTransform }
        let objs4 := objs3.set i { obj with selected := true, world := cached }
        ({ objects := objs4, active := some i }, exported ++ [model_name])

/-- Model of `obj.select_set(True)` on the object at index `i`. -/
def select_index (objs : List Obj) (i : Nat) : List Obj :=
  match objs[i]? with
  | some o => objs.set i { o with selected := true }
  | none => objs

/-- Indices of the currently selected objects, in scene order: the model of
`context.selected_objects.copy()`. -/
def selected_indices (l : List Obj) : List Nat :=
  (List.range l.length).filter
    (fun i => ((l[i]?).map (fun o => o.selected)).getD false)

/-- Embedding of `SAPIENS_OT_export_parts.execute`.  `blend_saved` models
`Path(bpy.data.filepath).exists()`.  The returned list holds the model names
exported, in order; `error` models the NameError raised by the final report
when no mesh was exported (`export_path` is then unbound), which occurs after
the state has been restored. -/
def execute_parts (blend_saved : Bool) (s : Scene) :
    OpResult × Scene × List (List Char) :=
  if blend_saved = false then (.cancelled, s, [])
  else
    let original_selection := selected_indices s.objects
    let original_active := s.active
    let res := (List.range s.objects.length).foldl export_parts_step (s, [])
    let objs5 := deselect_all res.1.objects
    let objs6 := original_selection.foldl select_index objs5
    let s2 : Scene := { objects := objs6, active := original_active }
    ((if res.2 = [] then OpResult.error else OpResult.finished), s2, res.2)

/-- The per-object data that `execute_parts` must leave unchanged: name,
type and world matrix. -/
def frameProj (o : Obj) : List Char × String × Transform :=
  (o.name, o.otype, o.world)

theorem set_self {α : Type} :
    ∀ (l : List α) (i : Nat) (a : α), l[i]? = some a → l.set i a = l
  | [], i, a, h => by simp at h
  | x :: xs, 0, a, h => by
    rw [List.getElem?_cons_zero] at h
    cases h
    rfl
  | x :: xs, n + 1, a, h => by
    rw [List.getElem?_cons_succ] at h
    show x :: xs.set n a = x :: xs
    rw [set_self xs n a h]

theorem deselect_all_frameProj (l : List Obj) :
    (deselect_all l).map frameProj = l.map frameProj := by
  unfold deselect_all
  rw [List.map_map]
  rfl

theorem deselect_all_getElem? (l : List Obj) (i : Nat) :
    (deselect_all l)[i]? = (l[i]?).map (fun o => { o with selected := false }) :=
  List.getElem?_map _ _ _

theorem export_parts_step_frameProj (st : Scene × List (List Char)) (i : Nat) :
    ((export_parts_step st i).1.objects).map frameProj = (st.1.objects).map frameProj := by
  rcases hobj : st.1.objects[i]? with _ | obj
  · simp only [export_parts_step, hobj]
  · by_cases hty : obj.otype ≠ "MESH"
    · simp only [export_parts_step, hobj, if_pos hty]
    · by_cases hmem : get_model_name obj.name ∈ st.2
      · simp only [export_parts_step, hobj, if_neg hty, if_pos hmem]
      · simp only [export_parts_step, hobj, if_neg hty, if_neg hmem]
        rw [List.set_set, List.set_set, List.map_set, deselect_all_frameProj]
        have hp : (st.1.objects.map frameProj)[i]? = some (frameProj obj) := by
          rw [List.getElem?_map, hobj]
          rfl
        exact set_self _ i _ hp

theorem foldl_step_frameProj (idxs : List Nat) :
    ∀ (st : Scene × List (List Char)),
      ((idxs.foldl export_parts_step st).1.objects).map frameProj
        = (st.1.objects).map frameProj := by
  induction idxs with
  | nil => intro st; rfl
  | cons i rest ih =>
    intro st
    rw [List.foldl_cons, ih, export_parts_step_frameProj]

theorem select_index_getElem? (l : List Obj) (i j : Nat) :
    (select_index l i)[j]?
      = if j = i
        then (l[j]?).map (fun o => { o with selected := true })
        else l[j]? := by
  unfold select_index
  by_cases hji : j = i
  · subst hji
    rcases hl : l[j]? with _ | o
    · simp [hl]
    · have hlt : j < l.length := by
        rw [List.getElem?_eq_some] at hl
        exact hl.1
      simp only [hl, if_pos rfl, Option.map_some']
      exact List.getElem?_set_eq hlt
  · rcases hl : l[i]? with _ | o
    · simp [hl, hji]
    · simp only [hl, if_neg hji]
      exact List.getElem?_set_ne (fun e => hji e.symm)

theorem foldl_select_index_getElem? :
    ∀ (sel : List Nat) (l : List Obj) (j : Nat),
      (sel.foldl select_index l)[j]?
        = (l[j]?).map (fun o => if j ∈ sel then { o with selected := true } else o)
  | [], l, j => by
    rcases hl : l[j]? with _ | o
    · simp [hl]
    · simp [hl]
  | i :: rest, l, j => by
    rw [List.foldl_cons, foldl_select_index_getElem? rest (select_index l i) j,
      select_index_getElem?]
    by_cases hji : j = i
    · subst hji
      cases l[j]? <;> simp [List.mem_cons]
    · simp only [if_neg hji]
      cases l[j]? <;> simp [List.mem_cons, hji]

theorem select_index_frameProj (l : List Obj) (i : Nat) :
    (select_index l i).map frameProj = l.map frameProj := by
  unfold select_index
  rcases hl : l[i]? with _ | o
  · rfl
  · rw [List.map_set]
    have hp : (l.map frameProj)[i]? = some (frameProj o) := by
      rw [List.getElem?_map, hl]
      rfl
    exact set_self _ _ _ hp

theorem foldl_select_index_frameProj (sel : List Nat) :
    ∀ (l : List Obj), ((sel.foldl select_index l).map frameProj) = l.map frameProj := by
  induction sel with
  | nil => intro l; rfl
  | cons i rest ih =>
    intro l
    rw [List.foldl_cons, ih, select_index_frameProj]

/-- C4: whenever `execute_parts` finishes, every object keeps its original
name, type and world matrix, the selection flags equal the original ones,
and the active object is the original one. -/
theorem export_parts_restores_state (saved : Bool) (s : Scene)
    (hfin : (execute_parts saved s).1 = OpResult.finished) :
    ((execute_parts saved s).2.1.objects).map frameProj = s.objects.map frameProj ∧
    ((execute_parts saved s).2.1.objects).map (fun o => o.selected)
      = s.objects.map (fun o => o.selected) ∧
    (execute_parts saved s).2.1.active = s.active := by
  cases saved with
  | false => simp [execute_parts] at hfin
  | true =>
    have heq : (execute_parts true s).2.1
        = { objects := (selected_indices s.objects).foldl select_index
              (deselect_all
                ((List.range s.objects.length).foldl export_parts_step (s, [])).1.objects)
            active := s.active } := rfl
    rw [heq]
    set A := ((List.range s.objects.length).foldl export_parts_step (s, [])).1.objects with hA
    have hAproj : A.map frameProj = s.objects.map frameProj :=
      foldl_step_frameProj (List.range s.objects.length) (s, [])
    have hlenA : A.length = s.objects.length := by
      have h := congrArg List.length hAproj
      simpa using h
    refine ⟨?_, ?_, rfl⟩
    · rw [foldl_select_index_frameProj, deselect_all_frameProj, hAproj]
    · apply List.ext_getElem?_iff.mpr
      intro j
      rw [List.getElem?_map, List.getElem?_map, foldl_select_index_getElem?,
        deselect_all_getElem?]
      rcases hAj : A[j]? with _ | o
      · have hge : s.objects.length ≤ j := by
          have := List.getElem?_eq_none_iff.mp hAj
          omega
        rw [List.getElem?_eq_none_iff.mpr hge]
        rfl
      · have hlt : j < A.length := by
          rw [List.getElem?_eq_some] at hAj
          exact hAj.1
        have hj : j < s.objects.length := by omega
        rcases hs : s.objects[j]? with _ | o₀
        · have := List.getElem?_eq_none_iff.mp hs
          omega
        · have hmem : j ∈ selected_indices s.objects ↔ o₀.selected = true := by
            unfold selected_indices
            rw [List.mem_filter, List.mem_range]
            simp [hs, hj]
          simp only [Option.map_some']
          by_cases hsel : o₀.selected = true
          · rw [if_pos (hmem.mpr hsel)]
            simp [hsel]
          · rw [if_neg (fun h => hsel (hmem.mp h))]
            have hfalse : o₀.selected = false := by
              cases h : o₀.selected
              · rfl
              · exact absurd h hsel
            simp [hfalse]

/-- A concrete scene: a selected mesh with a nontrivial transform and an
unselected camera, the camera active. -/
def sampleScene : Scene :=
  { objects := [
      { name := "hut_wall.001".data, otype := "MESH"
        world := { loc := (1, 2, 3), rot := (0, 0, 0), scl := (1, 1, 1) }
        selected := true },
      { name := "icon_camera2".data, otype := "CAMERA"
        world := { loc := (5, 5, 5), rot := (0, 0, 0), scl := (1, 1, 1) }
        selected := false }]
    active := some 1 }

/-- Witness for C4: on the concrete scene, the export finishes and every
restoration clause holds. -/
theorem export_parts_restores_state_witness :
    (execute_parts true sampleScene).1 = OpResult.finished ∧
    (((execute_parts true sampleScene).2.1.objects).map frameProj
        = sampleScene.objects.map frameProj ∧
      ((execute_parts true sampleScene).2.1.objects).map (fun o => o.selected)
        = sampleScene.objects.map (fun o => o.selected) ∧
      (execute_parts true sampleScene).2.1.active = sampleScene.active) :=
  ⟨rfl, export_parts_restores_state true sampleScene rfl⟩

/-- C8: running `execute_parts` on an unsaved blend file cancels immediately:
the scene is returned unchanged and nothing has been exported. -/
theorem export_parts_unsaved_cancels (s : Scene) :
    execute_parts false s = (OpResult.cancelled, s, []) := rfl

/-- A material datablock as seen by the duplicate-removal operator: a stable
identity (modelling the Python object reference) and its current name. -/
structure MatRef where
  mid : Nat
  name : List Char
  deriving DecidableEq, Repr

/-- A scene object with material slots; each slot holds the identity of its
material, if any. -/
structure SlotObj where
  otype : String
  slots : List (Option Nat)
  deriving DecidableEq, Repr

/-- The materials and objects touched by
`SAPIENS_OT_remove_duplicate_materials`. -/
structure MatState where
  mats : List MatRef
  objs : List SlotObj
  deriving DecidableEq, Repr

/-- The regular expression `(.*)\.(\d\x7b3\x7d)$`: it accepts exactly the
names ending in a dot followed by three digits, and returns the (greedy)
base, the name minus its last four characters. -/
def dup_match (name : List Char) : Option (List Char) :=
  match name.reverse with
  | d1 :: d2 :: d3 :: '.' :: rest =>
      if d1.isDigit && d2.isDigit && d3.isDigit then some rest.reverse else none
  | _ => none

/-- Model of `bpy.data.materials.get(name)` for the duplicate remover. -/
def mats_get (mats : List MatRef) (name : List Char) : Option MatRef :=
  mats.find? (fun x => x.name == name)

/-- One iteration of the loop in
`SAPIENS_OT_remove_duplicate_materials.execute`, processing the snapshot
material with identity `mid`: if its name matches the duplicate pattern and
the base material exists, reassign every mesh slot and remove it; if the
base does not exist (checked twice, as in the source), rename it to the
base. -/
def remove_dup_step (st : MatState) (mid : Nat) : MatState :=
  match st.mats.find? (fun x => x.mid == mid) with
  | none => st
  | some mat =>
    match dup_match mat.name with
    | none => st
    | some base =>
      match mats_get st.mats base with
      | some base_mat =>
          { mats := st.mats.filter (fun x => !(x.mid == mid))
            objs := st.objs.map (fun o =>
              if o.otype = "MESH" then
                { o with slots := o.slots.map (fun sl =>
                    if sl == some mid then some base_mat.mid else sl) }
              else o) }
      | none =>
          if (mats_get st.mats base).isSome then st
          else
            { st with mats := st.mats.map (fun x =>
                if x.mid == mid then { x with name := base } else x) }

/-- Embedding of `SAPIENS_OT_remove_duplicate_materials.execute`: iterate
over a snapshot of the material list (`list(bpy.data.materials)`), processing
each snapshot material by identity against the evolving state. -/
def remove_duplicate_materials (st : MatState) : MatState :=
  (st.mats.map (fun x => x.mid)).foldl remove_dup_step st

theorem find?_filter_keep {α : Type} (p q : α → Bool)
    (himp : ∀ a, p a = true → q a = true) :
    ∀ (l : List α), (l.filter q).find? p = l.find? p
  | [] => rfl
  | a :: l => by
    by_cases hq : q a = true
    · rw [List.filter_cons_of_pos hq]
      by_cases hp : p a = true
      · rw [List.find?_cons_of_pos _ hp, List.find?_cons_of_pos _ hp]
      · rw [List.find?_cons_of_neg _ hp, List.find?_cons_of_neg _ hp,
          find?_filter_keep p q himp l]
    · have hp : p a = false := by
        cases h : p a
        · rfl
        · exact absurd (himp a h) hq
      rw [List.filter_cons_of_neg (by simpa using hq),
        List.find?_cons_of_neg _ (by simp [hp]), find?_filter_keep p q himp l]

theorem find?_filter_not {α : Type} (p : α → Bool) (l : List α) :
    (l.filter (fun a => !(p a))).find? p = none := by
  rw [List.find?_eq_none]
  intro x hx
  have h := (List.mem_filter.mp hx).2
  simp at h
  simp [h]

theorem find?_map_pres {α : Type} (p : α → Bool) (f : α → α)
    (hpres : ∀ a, p (f a) = p a) :
    ∀ (l : List α), (l.map f).find? p = (l.find? p).map f
  | [] => rfl
  | a :: l => by
    by_cases hp : p a = true
    · rw [List.map_cons, List.find?_cons_of_pos _ (by rw [hpres]; exact hp),
        List.find?_cons_of_pos _ hp]
      rfl
    · rw [List.map_cons, List.find?_cons_of_neg _ (by rw [hpres]; exact hp),
        List.find?_cons_of_neg _ hp, find?_map_pres p f hpres l]

theorem find?_map_fix {α : Type} (p : α → Bool) (f : α → α)
    (hpres : ∀ a, p (f a) = p a) (hfix : ∀ a, p a = true → f a = a) :
    ∀ (l : List α), (l.map f).find? p = l.find? p
  | [] => rfl
  | a :: l => by
    by_cases hp : p a = true
    · rw [List.map_cons, List.find?_cons_of_pos _ (by rw [hpres]; exact hp),
        List.find?_cons_of_pos _ hp, hfix a hp]
    · rw [List.map_cons, List.find?_cons_of_neg _ (by rw [hpres]; exact hp),
        List.find?_cons_of_neg _ hp, find?_map_fix p f hpres hfix l]

/-- Processing one snapshot material leaves the lookup of any other material
identity unchanged. -/
theorem remove_dup_step_other (st : MatState) (mid mid' : Nat) (hne : mid' ≠ mid) :
    ((remove_dup_step st mid').mats.find? (fun x => x.mid == mid))
      = st.mats.find? (fun x => x.mid == mid) := by
  unfold remove_dup_step
  rcases hf : st.mats.find? (fun x => x.mid == mid') with _ | mat
  · rw [hf]
  · rw [hf]
    dsimp only
    rcases hd : dup_match mat.name with _ | base
    · rfl
    · dsimp only
      rcases hg : mats_get st.mats base with _ | base_mat
      · dsimp only
        rw [if_neg (by simp)]
        dsimp only
        apply find?_map_fix
        · intro a
          by_cases ha : a.mid == mid'
          · simp [ha]
          · simp [ha]
        · intro a hpa
          have hamid : a.mid = mid := by simpa using hpa
          rw [if_neg (by simp [hamid, Ne.symm hne])]
      · dsimp only
        apply find?_filter_keep
        intro a ha
        have hmid : a.mid = mid := by simpa using ha
        simp [hmid, Ne.symm hne]

theorem foldl_remove_dup_other :
    ∀ (mids : List Nat) (stx : MatState) (mid : Nat), mid ∉ mids →
      ((mids.foldl remove_dup_step stx).mats.find? (fun x => x.mid == mid))
        = stx.mats.find? (fun x => x.mid == mid)
  | [], _, _, _ => rfl
  | a :: rest, stx, mid, h => by
    rw [List.foldl_cons,
      foldl_remove_dup_other rest (remove_dup_step stx a) mid
        (fun hc => h (List.mem_cons_of_mem a hc)),
      remove_dup_step_other stx mid a (fun e => h (e ▸ List.mem_cons_self a rest))]

/-- Processing a snapshot material whose name matches the duplicate pattern
either removes it or renames it to its base. -/
theorem remove_dup_step_self (st : MatState) (m : MatRef) (base : List Char)
    (hf : st.mats.find? (fun x => x.mid == m.mid) = some m)
    (hd : dup_match m.name = some base) :
    (remove_dup_step st m.mid).mats.find? (fun x => x.mid == m.mid) = none ∨
    ∃ x, (remove_dup_step st m.mid).mats.find? (fun x => x.mid == m.mid) = some x
      ∧ x.name = base := by
  unfold remove_dup_step
  rw [hf]
  dsimp only
  rw [hd]
  dsimp only
  rcases hg : mats_get st.mats base with _ | base_mat
  · right
    dsimp only
    rw [if_neg (by simp)]
    dsimp only
    rw [find?_map_pres _ _ (fun a => by by_cases ha : a.mid == m.mid <;> simp [ha]), hf]
    exact ⟨_, rfl, by simp⟩
  · left
    dsimp only
    exact find?_filter_not _ _

theorem find?_mid_of_mem :
    ∀ (l : List MatRef) (m : MatRef),
      (l.map (fun x => x.mid)).Nodup → m ∈ l →
      l.find? (fun x => x.mid == m.mid) = some m
  | [], m, _, hm => absurd hm (List.not_mem_nil m)
  | a :: l, m, hnd, hm => by
    rw [List.map_cons, List.nodup_cons] at hnd
    rcases List.mem_cons.mp hm with rfl | hm2
    · rw [List.find?_cons_of_pos _ (by simp)]
    · have hne : a.mid ≠ m.mid := fun e => hnd.1 (e ▸ List.mem_map_of_mem _ hm2)
      rw [List.find?_cons_of_neg _ (by simp [hne]), find?_mid_of_mem l m hnd.2 hm2]

/-- C9 as amended: for each material `m` whose name matches
`base + "." + 3 digits`, the snapshot splits around its turn, and at that
moment the step is settled by whether a material named `base` exists in the
current state: if it does, `m` is removed from the material list and every
mesh material slot referencing `m` is reassigned to that base material, and
`m` is absent from the final state; if it does not, `m` is renamed to
`base` (the sole change of the step), and the final state still holds `m`
under the name `base`.  Material identities are assumed distinct, as Python
object references are. -/
theorem remove_duplicates_each (st : MatState) (m : MatRef) (base : List Char)
    (hnodup : (st.mats.map (fun x => x.mid)).Nodup)
    (hmem : m ∈ st.mats)
    (hmatch : dup_match m.name = some base) :
    ∃ s1 s2, st.mats.map (fun x => x.mid) = s1 ++ m.mid :: s2 ∧
      (match mats_get (s1.foldl remove_dup_step st).mats base with
       | some base_mat =>
           remove_dup_step (s1.foldl remove_dup_step st) m.mid
             = { mats := (s1.foldl remove_dup_step st).mats.filter
                   (fun x => !(x.mid == m.mid))
                 objs := (s1.foldl remove_dup_step st).objs.map (fun o =>
                   if o.otype = "MESH" then
                     { o with slots := o.slots.map (fun sl =>
                         if sl == some m.mid then some base_mat.mid else sl) }
                   else o) } ∧
           (remove_duplicate_materials st).mats.find? (fun x => x.mid == m.mid) = none
       | none =>
           remove_dup_step (s1.foldl remove_dup_step st) m.mid
             = { s1.foldl remove_dup_step st with
                 mats := (s1.foldl remove_dup_step st).mats.map (fun x =>
                   if x.mid == m.mid then { x with name := base } else x) } ∧
           (remove_duplicate_materials st).mats.find? (fun x => x.mid == m.mid)
             = some { m with name := base }) := by
  have hmemL : m.mid ∈ st.mats.map (fun x => x.mid) := List.mem_map_of_mem _ hmem
  obtain ⟨s1, s2, hsplit⟩ := List.mem_iff_append.mp hmemL
  have hnd2 : (s1 ++ m.mid :: s2).Nodup := hsplit ▸ hnodup
  rw [List.nodup_append] at hnd2
  have hs1 : m.mid ∉ s1 := fun hc => (hnd2.2.2 hc) (List.mem_cons_self _ _)
  have hs2 : m.mid ∉ s2 := (List.nodup_cons.mp hnd2.2.1).1
  have hst1 : (s1.foldl remove_dup_step st).mats.find? (fun x => x.mid == m.mid)
      = some m := by
    rw [foldl_remove_dup_other s1 st _ hs1]
    exact find?_mid_of_mem st.mats m hnodup hmem
  have hfin : (remove_duplicate_materials st).mats.find? (fun x => x.mid == m.mid)
      = (remove_dup_step (s1.foldl remove_dup_step st) m.mid).mats.find?
          (fun x => x.mid == m.mid) := by
    unfold remove_duplicate_materials
    rw [hsplit, List.foldl_append, List.foldl_cons,
      foldl_remove_dup_other s2 _ _ hs2]
  refine ⟨s1, s2, hsplit, ?_⟩
  rcases hg : mats_get (s1.foldl remove_dup_step st).mats base with _ | base_mat
  · have hstep : remove_dup_step (s1.foldl remove_dup_step st) m.mid
        = { s1.foldl remove_dup_step st with
            mats := (s1.foldl remove_dup_step st).mats.map (fun x =>
              if x.mid == m.mid then { x with name := base } else x) } := by
      simp only [remove_dup_step]
      rw [hst1]
      dsimp only
      rw [hmatch]
      dsimp only
      rw [hg]
      dsimp only
      rw [if_neg (by simp)]
    refine ⟨hstep, ?_⟩
    rw [hfin, hstep]
    dsimp only
    rw [find?_map_pres _ _ (fun a => by by_cases ha : a.mid == m.mid <;> simp [ha]), hst1]
    simp
  · have hstep : remove_dup_step (s1.foldl remove_dup_step st) m.mid
        = { mats := (s1.foldl remove_dup_step st).mats.filter
              (fun x => !(x.mid == m.mid))
            objs := (s1.foldl remove_dup_step st).objs.map (fun o =>
              if o.otype = "MESH" then
                { o with slots := o.slots.map (fun sl =>
                    if sl == some m.mid then some base_mat.mid else sl) }
              else o) } := by
      simp only [remove_dup_step]
      rw [hst1]
      dsimp only
      rw [hmatch]
      dsimp only
      rw [hg]
    refine ⟨hstep, ?_⟩
    rw [hfin, hstep]
    exact find?_filter_not _ _

/-- A state holding one doubly suffixed material and no objects. -/
def dupState : MatState :=
  { mats := [{ mid := 0, name := "x.001.002".data }], objs := [] }

/-- Counterexample for C9: on `dupState`, the operator renames "x.001.002"
to "x.001", which still matches the duplicate pattern, so a material whose
name matches the pattern remains after execution. -/
theorem remove_duplicates_leaves_pattern_name :
    ((remove_duplicate_materials dupState).mats.map (fun x => x.name)
      = ["x.001".data]) ∧
    ((dup_match ("x.001".data)).isSome = true) := by
  constructor
  · rfl
  · rfl

/-- A state holding "bone", its duplicate "bone.001", and a mesh whose
slots reference both. -/
def dupSlotState : MatState :=
  { mats := [{ mid := 0, name := "bone".data }, { mid := 1, name := "bone.001".data }]
    objs := [{ otype := "MESH", slots := [some 1, some 0, none] }] }

/-- Witness for C9 as amended, at a state holding "bone", "bone.001" and a
mesh referencing both: the duplicate is removed and the mesh slot pointing
at it is reassigned to "bone". -/
theorem remove_duplicates_each_witness :
    ((dupSlotState.mats.map (fun x => x.mid)).Nodup ∧
      ({ mid := 1, name := "bone.001".data } : MatRef) ∈ dupSlotState.mats ∧
      dup_match ("bone.001".data) = some ("bone".data)) ∧
    (∃ s1 s2, dupSlotState.mats.map (fun x => x.mid) = s1 ++ 1 :: s2 ∧
      (match mats_get (s1.foldl remove_dup_step dupSlotState).mats ("bone".data) with
       | some base_mat =>
           remove_dup_step (s1.foldl remove_dup_step dupSlotState) 1
             = { mats := (s1.foldl remove_dup_step dupSlotState).mats.filter
                   (fun x => !(x.mid == 1))
                 objs := (s1.foldl remove_dup_step dupSlotState).objs.map (fun o =>
                   if o.otype = "MESH" then
                     { o with slots := o.slots.map (fun sl =>
                         if sl == some 1 then some base_mat.mid else sl) }
                   else o) } ∧
           (remove_duplicate_materials dupSlotState).mats.find? (fun x => x.mid == 1)
             = none
       | none =>
           remove_dup_step (s1.foldl remove_dup_step dupSlotState) 1
             = { s1.foldl remove_dup_step dupSlotState with
                 mats := (s1.foldl remove_dup_step dupSlotState).mats.map (fun x =>
                   if x.mid == 1 then { x with name := "bone".data } else x) } ∧
           (remove_duplicate_materials dupSlotState).mats.find? (fun x => x.mid == 1)
             = some { mid := 1, name := "bone".data })) :=
  ⟨⟨by decide, by decide, by decide⟩,
    remove_duplicates_each dupSlotState { mid := 1, name := "bone.001".data } ("bone".data)
      (by decide) (by decide) (by decide)⟩

/-- The in-memory index of `MaterialFile`: an insertion-ordered dict from
material name to the JSON record stored for it (`none` models the Python
`None` stored when `material_to_json` finds no shader). -/
abbrev MatIndex := List (List Char × Option MatJson)

/-- Python dict assignment `d[k] = v`: replace the value in place when the
key exists, else append the new pair. -/
def dictInsert {V : Type} (l : List (List Char × V)) (k : List Char) (v : V) :
    List (List Char × V) :=
  if l.any (fun p => p.1 == k) then
    l.map (fun p => if p.1 == k then (k, v) else p)
  else l ++ [(k, v)]

/-- Embedding of `MaterialFile.write_material`: index the record under the
material name. -/
def write_material (index : MatIndex) (material : Material) : MatIndex :=
  dictInsert index material.name (material_to_json material)

/-- Embedding of `MaterialFile.get_materials`, the hs_materials array that
`MaterialFile.save` writes: the index values, in order. -/
def get_materials (index : MatIndex) : List (Option MatJson) :=
  index.map (fun p => p.2)

/-- Embedding of `MaterialFile.build_index`: index each file record under
its "identifier" entry; `none` models the KeyError on a record without
one. -/
def build_index (records : List MatJson) : Option MatIndex :=
  records.foldlM
    (fun idx r => (r.identifier).map (fun k => dictInsert idx k (some r))) []

/-- The keys of an index, in order. -/
def indexKeys {V : Type} (index : List (List Char × V)) : List (List Char) :=
  index.map (fun p => p.1)

/-- A well-formed index: no key occurs twice, and every stored record has
its key as identifier.  `build_index` and `write_material` only produce
such indices. -/
def index_wf (index : MatIndex) : Prop :=
  (indexKeys index).Nodup ∧
  ∀ p ∈ index, ∀ r, p.2 = some r → r.identifier = some p.1

theorem find?_append_none {α : Type} (p : α → Bool) :
    ∀ (l1 l2 : List α), l1.find? p = none → (l1 ++ l2).find? p = l2.find? p
  | [], _, _ => rfl
  | a :: l1, l2, h => by
    by_cases hp : p a = true
    · rw [List.find?_cons_of_pos _ hp] at h
      exact absurd h (by simp)
    · rw [List.find?_cons_of_neg _ hp] at h
      rw [List.cons_append, List.find?_cons_of_neg _ hp, find?_append_none p l1 l2 h]

theorem find?_append_some {α : Type} (p : α → Bool) :
    ∀ (l1 l2 : List α) (a : α), l1.find? p = some a → (l1 ++ l2).find? p = some a
  | [], _, _, h => by simp at h
  | b :: l1, l2, a, h => by
    by_cases hp : p b = true
    · rw [List.find?_cons_of_pos _ hp] at h
      rw [List.cons_append, List.find?_cons_of_pos _ hp]
      exact h
    · rw [List.find?_cons_of_neg _ hp] at h
      rw [List.cons_append, List.find?_cons_of_neg _ hp, find?_append_some p l1 l2 a h]

theorem find?_cons_pos {α : Type} (p : α → Bool) (a : α) (l : List α) (h : p a = true) :
    (a :: l).find? p = some a := List.find?_cons_of_pos l h

theorem find?_cons_neg {α : Type} (p : α → Bool) (a : α) (l : List α) (h : p a = false) :
    (a :: l).find? p = l.find? p := List.find?_cons_of_neg l (by simp [h])

theorem countP_cons_eq {α : Type} (p : α → Bool) (a : α) (l : List α) :
    (a :: l).countP p = l.countP p + (if p a = true then 1 else 0) := by
  by_cases h : p a = true
  · rw [List.countP_cons_of_pos _ _ h, if_pos h]
  · rw [List.countP_cons_of_neg _ _ (by simpa using h), if_neg h]
    omega

/-- Looking a key up after a dict insert: the inserted key maps to the new
value, every other key is untouched. -/
theorem dictInsert_find? {V : Type} (l : List (List Char × V)) (k k' : List Char) (v : V) :
    (dictInsert l k v).find? (fun p => p.1 == k')
      = if k' = k then some (k, v) else l.find? (fun p => p.1 == k') := by
  unfold dictInsert
  by_cases hany : l.any (fun p => p.1 == k) = true
  · rw [if_pos hany]
    by_cases hk : k' = k
    · subst hk
      obtain ⟨a, ha, hak⟩ := List.any_eq_true.mp hany
      rw [if_pos rfl]
      have hfind : ∀ (l2 : List (List Char × V)), (∃ b ∈ l2, (b.1 == k') = true) →
          (l2.map (fun p => if p.1 == k' then (k', v) else p)).find? (fun p => p.1 == k')
            = some (k', v) := by
        intro l2
        induction l2 with
        | nil => rintro ⟨b, hb, -⟩; exact absurd hb (List.not_mem_nil b)
        | cons q l2 ih =>
          rintro ⟨b, hb, hbk⟩
          by_cases hq : (q.1 == k') = true
          · rw [List.map_cons, if_pos hq,
              find?_cons_pos (fun p => p.1 == k') (k', v) _ (by simp)]
          · rw [List.map_cons, if_neg hq,
              find?_cons_neg (fun p => p.1 == k') q _ (by simpa using hq)]
            rcases List.mem_cons.mp hb with rfl | hb2
            · exact absurd hbk hq
            · exact ih ⟨b, hb2, hbk⟩
      exact hfind l ⟨a, ha, hak⟩
    · rw [if_neg hk]
      apply find?_map_fix
      · intro a
        by_cases ha : (a.1 == k) = true
        · have hak : a.1 = k := by simpa using ha
          simp [ha, hak]
        · simp [ha]
      · intro a hpa
        have ha : a.1 = k' := by simpa using hpa
        rw [if_neg (by simp [ha, hk])]
  · rw [if_neg hany]
    have hnone : l.find? (fun p => p.1 == k) = none := by
      rw [List.find?_eq_none]
      intro x hx
      intro hc
      exact hany (List.any_eq_true.mpr ⟨x, hx, hc⟩)
    by_cases hk : k' = k
    · subst hk
      rw [if_pos rfl, find?_append_none _ l _ hnone,
        List.find?_cons_of_pos _ (by simp)]
    · rw [if_neg hk]
      rcases hf : l.find? (fun p => p.1 == k') with _ | a
      · rw [find?_append_none _ l _ hf, hf,
          find?_cons_neg (fun p => p.1 == k') (k, v) [] (by simp [Ne.symm hk]),
          List.find?_nil]
      · rw [hf, find?_append_some (fun p => p.1 == k') l [(k, v)] a hf]

theorem dictInsert_keys_any {V : Type} (l : List (List Char × V)) (k : List Char) (v : V)
    (hany : l.any (fun p => p.1 == k) = true) :
    indexKeys (dictInsert l k v) = indexKeys l := by
  unfold dictInsert
  rw [if_pos hany]
  unfold indexKeys
  rw [List.map_map]
  apply List.map_congr_left
  intro a _
  by_cases ha : (a.1 == k) = true
  · have hak : a.1 = k := by simpa using ha
    simp [ha, hak]
  · have hne : a.1 ≠ k := by simpa using ha
    simp [hne]

/-- Dict insertion preserves index well-formedness, provided the inserted
value carries its key as identifier. -/
theorem dictInsert_wf (l : MatIndex) (k : List Char) (v : Option MatJson)
    (hwf : index_wf l) (hv : ∀ r, v = some r → r.identifier = some k) :
    index_wf (dictInsert l k v) := by
  constructor
  · by_cases hany : l.any (fun p => p.1 == k) = true
    · rw [dictInsert_keys_any l k v hany]
      exact hwf.1
    · unfold dictInsert
      rw [if_neg hany]
      unfold indexKeys
      rw [List.map_append]
      rw [List.nodup_append]
      refine ⟨hwf.1, by simp, ?_⟩
      intro a ha
      simp only [List.map_cons, List.map_nil, List.mem_singleton]
      intro hak
      subst hak
      obtain ⟨p, hp, hpk⟩ := List.mem_map.mp ha
      exact hany (List.any_eq_true.mpr ⟨p, hp, by simp [hpk]⟩)
  · intro p hp r hr
    unfold dictInsert at hp
    by_cases hany : l.any (fun x => x.1 == k) = true
    · rw [if_pos hany] at hp
      obtain ⟨q, hq, hqe⟩ := List.mem_map.mp hp
      by_cases hqk : q.1 == k
      · rw [if_pos hqk] at hqe
        subst hqe
        exact hv r hr
      · rw [if_neg hqk] at hqe
        subst hqe
        exact hwf.2 q hq r hr
    · rw [if_neg hany] at hp
      rcases List.mem_append.mp hp with hp1 | hp2
      · exact hwf.2 p hp1 r hr
      · rw [List.mem_singleton] at hp2
        subst hp2
        exact hv r hr

/-- Written values carry the material name as identifier. -/
theorem material_to_json_identifier (m : Material) (r : MatJson)
    (h : material_to_json m = some r) : r.identifier = some m.name := by
  unfold material_to_json at h
  rcases hbs : (if m.use_nodes = true then
      m.nodes.find? (fun node => node.ntype == "BSDF_PRINCIPLED") else none) with _ | b
  · rw [hbs] at h
    exact absurd h (by simp)
  · rw [hbs] at h
    cases h
    rfl

theorem foldl_write_material_wf (ms : List Material) :
    ∀ (idx : MatIndex), index_wf idx → index_wf (ms.foldl write_material idx) := by
  induction ms with
  | nil => intro idx h; exact h
  | cons m rest ih =>
    intro idx h
    rw [List.foldl_cons]
    exact ih _ (dictInsert_wf idx m.name (material_to_json m) h
      (fun r hr => material_to_json_identifier m r hr))

/-- The final index value at a name is the record of the last written
material of that name (or the initial entry when none was written). -/
theorem foldl_write_material_find? :
    ∀ (ms : List Material) (idx : MatIndex) (n : List Char),
      (ms.foldl write_material idx).find? (fun p => p.1 == n)
        = match ms.reverse.find? (fun x => x.name == n) with
          | some m => some (m.name, material_to_json m)
          | none => idx.find? (fun p => p.1 == n)
  | [], idx, n => by simp
  | m :: rest, idx, n => by
    rw [List.foldl_cons, foldl_write_material_find? rest (write_material idx m) n,
      List.reverse_cons]
    rcases h : rest.reverse.find? (fun x => x.name == n) with _ | m2
    · rw [h, find?_append_none _ _ _ h]
      dsimp only
      by_cases hm : (m.name == n) = true
      · have hn : m.name = n := by simpa using hm
        rw [find?_cons_pos (fun x => x.name == n) m [] hm]
        dsimp only
        unfold write_material
        rw [dictInsert_find?, if_pos hn.symm]
      · rw [find?_cons_neg (fun x => x.name == n) m [] (by simpa using hm),
          List.find?_nil]
        dsimp only
        unfold write_material
        rw [dictInsert_find?, if_neg (fun e => hm (by simp [e]))]
    · rw [h, find?_append_some (fun x => x.name == n) rest.reverse [m] m2 h]

theorem countP_key_le_one (n : List Char) :
    ∀ (l : MatIndex), (indexKeys l).Nodup → l.countP (fun p => p.1 == n) ≤ 1
  | [], _ => by simp
  | q :: l, hnd => by
    rw [indexKeys, List.map_cons, List.nodup_cons] at hnd
    rw [countP_cons_eq]
    by_cases hq : (q.1 == n) = true
    · have hqn : q.1 = n := by simpa using hq
      rw [if_pos hq]
      have hzero : l.countP (fun p => p.1 == n) = 0 := by
        rw [List.countP_eq_zero]
        intro p hp hpc
        have hpn : p.1 = n := by simpa using hpc
        exact hnd.1 (hqn ▸ hpn ▸ List.mem_map_of_mem _ hp)
      omega
    · rw [if_neg hq]
      have := countP_key_le_one n l hnd.2
      omega

/-- C10: keying the index by material name makes names unique: after any
sequence of `write_material` calls on a well-formed index, the index stays
well formed, the saved hs_materials array holds at most one record per
identifier, and the entry for a name is the record of the last material
written under that name. -/
theorem material_index_unique (idx0 : MatIndex) (ms : List Material)
    (hwf : index_wf idx0) :
    index_wf (ms.foldl write_material idx0) ∧
    (∀ (n : List Char),
      ((get_materials (ms.foldl write_material idx0)).filter
        (fun v => match v with
          | some r => r.identifier == some n
          | none => false)).length ≤ 1) ∧
    (∀ (n : List Char) (m : Material),
      ms.reverse.find? (fun x => x.name == n) = some m →
      (ms.foldl write_material idx0).find? (fun p => p.1 == n)
        = some (m.name, material_to_json m)) := by
  have hwff := foldl_write_material_wf ms idx0 hwf
  refine ⟨hwff, ?_, ?_⟩
  · intro n
    rw [← List.countP_eq_length_filter, get_materials, List.countP_map]
    refine le_trans (List.countP_mono_left ?_) (countP_key_le_one n _ hwff.1)
    intro p hp hc
    simp only [Function.comp_apply] at hc
    rcases hr : p.2 with _ | r
    · rw [hr] at hc
      simp at hc
    · rw [hr] at hc
      have hid : r.identifier = some n := by simpa using hc
      have hkey := hwff.2 p hp r hr
      rw [hkey] at hid
      simp at hid
      simp [hid]
  · intro n m hm
    rw [foldl_write_material_find?, hm]

/-- Witness for C10: two writes under the same name starting from the empty
index; the second write wins and a single record is saved. -/
theorem material_index_unique_witness :
    (index_wf ([] : MatIndex) →
      (index_wf ([sampleMaterial, { sampleMaterial with nodes := [] },
          sampleMaterial].foldl write_material []) ∧
        (∀ (n : List Char),
          ((get_materials ([sampleMaterial, { sampleMaterial with nodes := [] },
              sampleMaterial].foldl write_material [])).filter
            (fun v => match v with
              | some r => r.identifier == some n
              | none => false)).length ≤ 1) ∧
        (∀ (n : List Char) (m : Material),
          ([sampleMaterial, { sampleMaterial with nodes := [] },
              sampleMaterial] : List Material).reverse.find?
                (fun x => x.name == n) = some m →
          ([sampleMaterial, { sampleMaterial with nodes := [] },
              sampleMaterial].foldl write_material []).find? (fun p => p.1 == n)
            = some (m.name, material_to_json m)))) ∧
    index_wf ([] : MatIndex) :=
  ⟨fun h => material_index_unique []
      [sampleMaterial, { sampleMaterial with nodes := [] }, sampleMaterial] h,
    by constructor
       · simp [indexKeys]
       · intro p hp
         exact absurd hp (List.not_mem_nil p)⟩

/-- A scene object as seen by `SAPIENS_OT_export_empties`: a stable identity
(the Python object reference), plus the fields the operator reads or
writes. -/
structure EObj where
  eid : Nat
  name : List Char
  otype : String
  world : Transform
  parent : Option Nat
  hide_viewport : Bool
  hide_render : Bool
  selected : Bool
  empty_display_type : String
  empty_display_size : ℚ
  deriving DecidableEq, Repr

/-- A replacement record as tracked by the operator: the position of the
renamed mesh, the identity of the temporary empty, and the original mesh
name. -/
structure Repl where
  meshIdx : Nat
  emptyEid : Nat
  originalName : List Char
  deriving DecidableEq, Repr

/-- Embedding of `SAPIENS_OT_export_empties.get_empty_name`: strip at the
first ".", then keep the second "_"-segment, then append an underscore and
the per-name counter (returned updated). -/
def get_empty_name (mesh_name : List Char) (model_counts : List (List Char × Nat)) :
    List Char × List (List Char × Nat) :=
  let n1 := if '.' ∈ mesh_name then mesh_name.takeWhile (fun c => !(c == '.')) else mesh_name
  let n2 :=
    if '_' ∈ n1 then
      ((n1.dropWhile (fun c => !(c == '_'))).drop 1).takeWhile (fun c => !(c == '_'))
    else n1
  let index := ((model_counts.find? (fun p => p.1 == n2)).map (fun p => p.2)).getD 0 + 1
  (n2 ++ '_' :: (Nat.repr index).data, dictInsert model_counts n2 index)

/-- Pad a duplicate counter to three digits, as in Blender ".001"-style
name suffixes. -/
def pad3 (k : Nat) : List Char :=
  let d := (Nat.repr k).data
  List.replicate (3 - d.length) '0' ++ d

/-- Search for the first free ".001"-style suffix; the fuel always suffices
because `taken` is finite. -/
def uniquifyAux (taken : List (List Char)) (nm : List Char) : Nat → Nat → List Char
  | 0, k => nm ++ '.' :: pad3 k
  | fuel + 1, k =>
    let cand := nm ++ '.' :: pad3 k
    if cand ∈ taken then uniquifyAux taken nm fuel (k + 1) else cand

/-- Blender unique-name enforcement: an assigned or created object name
that is already in use gains the first free ".001"-style suffix. -/
def uniquify (taken : List (List Char)) (nm : List Char) : List Char :=
  if nm ∈ taken then uniquifyAux taken nm (taken.length + 1) 1 else nm

/-- The names of every object other than the one at position `i`: the set a
name assignment `obj.name = X` is checked against. -/
def namesExcept (l : List EObj) (i : Nat) : List (List Char) :=
  (l.eraseIdx i).map (fun o => o.name)

/-- Rename the object at position `i` (a no-op past the end), with Blender
unique-name enforcement against every other object. -/
def renameAt (l : List EObj) (i : Nat) (nm : List Char) : List EObj :=
  match l[i]? with
  | some o => l.set i { o with name := uniquify (namesExcept l i) nm }
  | none => l

/-- The temporary empty created for a mesh: fresh identity, computed name,
plain-axes display at half size, and the mesh transform, parent and hide
flags copied over. -/
def make_empty (counter : Nat) (nm : List Char) (obj : EObj) : EObj :=
  { eid := counter
    name := nm
    otype := "EMPTY"
    world := obj.world
    parent := obj.parent
    hide_viewport := obj.hide_viewport
    hide_render := obj.hide_render
    selected := false
    empty_display_type := "PLAIN_AXES"
    empty_display_size := 1/2 }

/-- The mesh-replacement loop of `SAPIENS_OT_export_empties.execute` over a
snapshot of the objects: rename each mesh (position `i`) to
name + "_original", create its empty at the end of the object list (its
name uniquified against every object alive after the rename, as
`bpy.data.objects.new` does), and record the replacement. -/
def replace_pass :
    List EObj → Nat → List EObj → List (List Char × Nat) → Nat → List Repl →
    List EObj × List Repl
  | [], _, objs, _, _, repl => (objs, repl)
  | o :: rest, i, objs, counts, counter, repl =>
    if o.otype = "MESH" then
      let en := get_empty_name o.name counts
      let objs1 := renameAt objs i (o.name ++ "_original".data)
      replace_pass rest (i + 1)
        (objs1 ++ [make_empty counter
          (uniquify (objs1.map (fun x => x.name)) en.1) o])
        en.2 (counter + 1) (repl ++ [⟨i, counter, o.name⟩])
    else
      replace_pass rest (i + 1) objs counts counter repl

/-- Model of the deselect-all call in `export_empties`. -/
def deselect_all_e (l : List EObj) : List EObj :=
  l.map (fun o => { o with selected := false })

/-- Model of selecting every empty and camera before the export. -/
def select_empties_cameras (l : List EObj) : List EObj :=
  l.map (fun o =>
    if o.otype = "EMPTY" ∨ o.otype = "CAMERA" then { o with selected := true } else o)

/-- The restore loop of `SAPIENS_OT_export_empties.execute`: for each
replacement in order, remove the temporary empty and rename the mesh back
to its original name. -/
def restore_pass (objs : List EObj) (repl : List Repl) : List EObj :=
  repl.foldl
    (fun l r => renameAt (l.filter (fun o => !(o.eid == r.emptyEid))) r.meshIdx r.originalName)
    objs

/-- An upper bound on the object identities in the scene, used to pick
fresh identities for the temporary empties. -/
def maxId (l : List EObj) : Nat :=
  l.foldr (fun o acc => max o.eid acc) 0

/-- Embedding of `SAPIENS_OT_export_empties.execute`.  `blend_saved` models
`Path(bpy.data.filepath).exists()`: on an unsaved file `get_export_path`
raises a TypeError (`False / stem`), modelled by `error` with the scene
untouched.  Otherwise: replace meshes by empties, select empties and
cameras, set the first new empty active, export (external), and restore.
The third component is the active object identity after the run. -/
def execute_empties (blend_saved : Bool) (s : List EObj) :
    OpResult × List EObj × Option Nat :=
  if blend_saved = false then (.error, s, none)
  else
    let res := replace_pass s 0 s [] (maxId s + 1) []
    let objs2 := select_empties_cameras (deselect_all_e res.1)
    let active := (res.2.head?).map (fun r => r.emptyEid)
    let objs3 := restore_pass objs2 res.2
    (.finished, objs3, active)

/-- The per-object data that `execute_empties` must restore: identity, name,
type and world matrix. -/
def eProj (o : EObj) : Nat × List Char × String × Transform :=
  (o.eid, o.name, o.otype, o.world)

/-- The renaming applied to an object during the replacement pass. -/
def renameIfMesh (o : EObj) : EObj :=
  if o.otype = "MESH" then { o with name := o.name ++ "_original".data } else o

/-- The temporary empties created by the replacement pass, in order. -/
def mkEmpties : List EObj → List (List Char × Nat) → Nat → List EObj
  | [], _, _ => []
  | o :: rest, counts, counter =>
    if o.otype = "MESH" then
      let en := get_empty_name o.name counts
      make_empty counter en.1 o :: mkEmpties rest en.2 (counter + 1)
    else mkEmpties rest counts counter

/-- The replacement records created by the replacement pass, in order. -/
def mkRepls : List EObj → Nat → Nat → List Repl
  | [], _, _ => []
  | o :: rest, i, counter =>
    if o.otype = "MESH" then ⟨i, counter, o.name⟩ :: mkRepls rest (i + 1) (counter + 1)
    else mkRepls rest (i + 1) counter

/-- The temporary name a mesh carries during the export. -/
def tempName (o : EObj) : List Char := o.name ++ "_original".data

/-- The computed (pre-uniquification) names of the empties created for a
snapshot, in order. -/
def mkEmptyNames : List EObj → List (List Char × Nat) → List (List Char)
  | [], _ => []
  | o :: rest, counts =>
    if o.otype = "MESH" then
      (get_empty_name o.name counts).1
        :: mkEmptyNames rest (get_empty_name o.name counts).2
    else mkEmptyNames rest counts

/-- The name-independent projection of an object: identity, type and world
matrix. -/
def eProj3 (o : EObj) : Nat × String × Transform :=
  (o.eid, o.otype, o.world)

/-- The identity, type and world data of the empties created for a
snapshot, in order. -/
def mkE3 : List EObj → Nat → List (Nat × String × Transform)
  | [], _ => []
  | o :: rest, counter =>
    if o.otype = "MESH" then (counter, "EMPTY", o.world) :: mkE3 rest (counter + 1)
    else mkE3 rest counter

theorem getElem?_append_len {α : Type} :
    ∀ (pre t : List α), (pre ++ t)[pre.length]? = t[0]?
  | [], t => rfl
  | a :: pre, t => by
    show (a :: (pre ++ t))[pre.length + 1]? = t[0]?
    rw [List.getElem?_cons_succ, getElem?_append_len pre t]

theorem set_append_len {α : Type} :
    ∀ (pre t : List α) (v : α), (pre ++ t).set pre.length v = pre ++ t.set 0 v
  | [], _, _ => rfl
  | a :: pre, t, v => by
    show a :: (pre ++ t).set pre.length v = a :: (pre ++ t.set 0 v)
    rw [set_append_len pre t v]

theorem uniquify_not_mem (taken : List (List Char)) (nm : List Char) (h : nm ∉ taken) :
    uniquify taken nm = nm := by
  unfold uniquify
  rw [if_neg h]

theorem eraseIdx_append_len {α : Type} :
    ∀ (pre : List α) (x : α) (t : List α), (pre ++ x :: t).eraseIdx pre.length = pre ++ t
  | [], _, _ => rfl
  | a :: pre, x, t => by
    show a :: (pre ++ x :: t).eraseIdx pre.length = a :: (pre ++ t)
    rw [eraseIdx_append_len pre x t]

/-- A rename whose target name is free of collisions behaves as a plain
field assignment. -/
theorem renameAt_append_len (pre : List EObj) (o : EObj) (t : List EObj) (nm : List Char)
    (hfree : nm ∉ (pre ++ t).map (fun x => x.name)) :
    renameAt (pre ++ o :: t) pre.length nm = pre ++ { o with name := nm } :: t := by
  unfold renameAt
  rw [getElem?_append_len pre (o :: t), List.getElem?_cons_zero]
  dsimp only
  rw [show namesExcept (pre ++ o :: t) pre.length = (pre ++ t).map (fun x => x.name) from by
      unfold namesExcept
      rw [eraseIdx_append_len],
    uniquify_not_mem _ _ hfree, set_append_len pre (o :: t) _]
  rfl

/-- Renames never change identities, types or world matrices, collisions or
not. -/
theorem renameAt_eProj3 (l : List EObj) (i : Nat) (nm : List Char) :
    (renameAt l i nm).map eProj3 = l.map eProj3 := by
  unfold renameAt
  rcases hl : l[i]? with _ | o
  · rfl
  · rw [List.map_set]
    have hp : (l.map eProj3)[i]? = some (eProj3 o) := by
      rw [List.getElem?_map, hl]
      rfl
    exact set_self _ _ _ hp

theorem mkEmpties_names :
    ∀ (rest : List EObj) (counts : List (List Char × Nat)) (counter : Nat),
      (mkEmpties rest counts counter).map (fun x => x.name) = mkEmptyNames rest counts
  | [], _, _ => rfl
  | o :: rest, counts, counter => by
    by_cases ho : o.otype = "MESH"
    · simp only [mkEmpties, mkEmptyNames, if_pos ho, List.map_cons,
        mkEmpties_names rest _ (counter + 1)]
      rfl
    · simp only [mkEmpties, mkEmptyNames, if_neg ho,
        mkEmpties_names rest counts counter]

theorem mkEmpties_ids :
    ∀ (rest : List EObj) (counts : List (List Char × Nat)) (ctr : Nat),
      ∀ o ∈ mkEmpties rest counts ctr, ctr ≤ o.eid
  | [], _, _ => by intro o ho; exact absurd ho (List.not_mem_nil o)
  | a :: rest, counts, ctr => by
    intro o ho
    unfold mkEmpties at ho
    by_cases ha : a.otype = "MESH"
    · rw [if_pos ha] at ho
      rcases List.mem_cons.mp ho with rfl | ho2
      · exact le_refl _
      · have := mkEmpties_ids rest _ (ctr + 1) o ho2
        omega
    · rw [if_neg ha] at ho
      exact mkEmpties_ids rest counts ctr o ho

theorem maxId_bound : ∀ (l : List EObj), ∀ o ∈ l, o.eid ≤ maxId l
  | [] => by intro o ho; exact absurd ho (List.not_mem_nil o)
  | a :: l => by
    intro o ho
    unfold maxId
    rcases List.mem_cons.mp ho with rfl | ho2
    · exact le_max_left _ _
    · have := maxId_bound l o ho2
      unfold maxId at this
      exact le_trans this (le_max_right _ _)

theorem filter_ne_eid (c : Nat) (l : List EObj) (h : ∀ o ∈ l, o.eid ≠ c) :
    l.filter (fun o => !(o.eid == c)) = l := by
  apply List.filter_eq_self.mpr
  intro a ha
  simp [h a ha]

/-- Closed form of the replacement pass when the temporary names and the
computed empty names collide with nothing: every rename and creation is
then free of unique-name suffixing, the snapshot part is renamed in place,
the empties are appended in order with their computed names, and the
replacement records follow the meshes. -/
theorem replace_pass_char :
    ∀ (rest pre post : List EObj) (counts : List (List Char × Nat))
      (counter : Nat) (repl0 : List Repl),
      (∀ o ∈ rest, o.otype = "MESH" →
        tempName o ∉ pre.map (fun x => x.name) ∧
        tempName o ∉ rest.map (fun x => x.name) ∧
        tempName o ∉ post.map (fun x => x.name) ∧
        tempName o ∉ mkEmptyNames rest counts) →
      (∀ nm ∈ mkEmptyNames rest counts,
        nm ∉ pre.map (fun x => x.name) ∧
        nm ∉ rest.map (fun x => x.name) ∧
        nm ∉ post.map (fun x => x.name) ∧
        ∀ o ∈ rest, o.otype = "MESH" → nm ≠ tempName o) →
      (mkEmptyNames rest counts).Nodup →
      (rest.map (fun x => x.name)).Nodup →
      replace_pass rest pre.length (pre ++ rest ++ post) counts counter repl0
        = (pre ++ rest.map renameIfMesh ++ (post ++ mkEmpties rest counts counter),
          repl0 ++ mkRepls rest pre.length counter)
  | [], pre, post, counts, counter, repl0, _, _, _, _ => by
    simp [replace_pass, mkEmpties, mkRepls]
  | o :: rest, pre, post, counts, counter, repl0, hA, hB, hC, hD => by
    unfold replace_pass
    by_cases ho : o.otype = "MESH"
    · rw [if_pos ho]
      dsimp only
      have hEN : mkEmptyNames (o :: rest) counts
          = (get_empty_name o.name counts).1
              :: mkEmptyNames rest (get_empty_name o.name counts).2 := by
        simp only [mkEmptyNames, if_pos ho]
      have hA0 := hA o (List.mem_cons_self o rest) ho
      have hB0 := hB (get_empty_name o.name counts).1
        (by rw [hEN]; exact List.mem_cons_self _ _)
      have hDc : o.name ∉ rest.map (fun x => x.name) ∧
          (rest.map (fun x => x.name)).Nodup := by
        rw [List.map_cons] at hD
        exact List.nodup_cons.mp hD
      have hCc : (get_empty_name o.name counts).1
            ∉ mkEmptyNames rest (get_empty_name o.name counts).2 ∧
          (mkEmptyNames rest (get_empty_name o.name counts).2).Nodup := by
        rw [hEN] at hC
        exact List.nodup_cons.mp hC
      have hfree : (o.name ++ "_original".data)
          ∉ (pre ++ (rest ++ post)).map (fun x => x.name) := by
        rw [List.map_append, List.map_append]
        intro hmem
        rcases List.mem_append.mp hmem with h1 | h2
        · exact hA0.1 h1
        · rcases List.mem_append.mp h2 with h3 | h4
          · exact hA0.2.1 (by rw [List.map_cons]; exact List.mem_cons_of_mem _ h3)
          · exact hA0.2.2.1 h4
      have hra : renameAt (pre ++ (o :: rest) ++ post) pre.length
            (o.name ++ "_original".data)
          = pre ++ ({ o with name := o.name ++ "_original".data } :: (rest ++ post)) := by
        have h := renameAt_append_len pre o (rest ++ post) (o.name ++ "_original".data) hfree
        simpa using h
      rw [hra]
      have hfreshE : (get_empty_name o.name counts).1
          ∉ (pre ++ ({ o with name := o.name ++ "_original".data }
              :: (rest ++ post))).map (fun x => x.name) := by
        rw [List.map_append, List.map_cons, List.map_append]
        intro hmem
        rcases List.mem_append.mp hmem with h1 | h2
        · exact hB0.1 h1
        · rcases List.mem_cons.mp h2 with h3 | h4
          · exact hB0.2.2.2 o (List.mem_cons_self o rest) ho h3
          · rcases List.mem_append.mp h4 with h5 | h6
            · exact hB0.2.1 (by rw [List.map_cons]; exact List.mem_cons_of_mem _ h5)
            · exact hB0.2.2.1 h6
      rw [uniquify_not_mem _ _ hfreshE]
      have hobjs : (pre ++ ({ o with name := o.name ++ "_original".data } :: (rest ++ post)))
            ++ [make_empty counter (get_empty_name o.name counts).1 o]
          = (pre ++ [{ o with name := o.name ++ "_original".data }]) ++ rest
              ++ (post ++ [make_empty counter (get_empty_name o.name counts).1 o]) := by
        simp
      rw [hobjs]
      have hrec := replace_pass_char rest
        (pre ++ [{ o with name := o.name ++ "_original".data }])
        (post ++ [make_empty counter (get_empty_name o.name counts).1 o])
        (get_empty_name o.name counts).2 (counter + 1)
        (repl0 ++ [⟨pre.length, counter, o.name⟩])
        (by
          intro o2 ho2 hm2
          have hA2 := hA o2 (List.mem_cons_of_mem o ho2) hm2
          have honames : o2.name ≠ o.name := by
            intro he
            exact hDc.1 (he ▸ List.mem_map_of_mem _ ho2)
          have htne : tempName o2 ≠ tempName o :=
            fun he => honames (List.append_cancel_right he)
          refine ⟨?_, ?_, ?_, ?_⟩
          · rw [List.map_append]
            intro hmem
            rcases List.mem_append.mp hmem with h1 | h2
            · exact hA2.1 h1
            · rw [List.map_cons, List.map_nil, List.mem_singleton] at h2
              exact htne h2
          · intro hmem
            exact hA2.2.1 (by rw [List.map_cons]; exact List.mem_cons_of_mem _ hmem)
          · rw [List.map_append]
            intro hmem
            rcases List.mem_append.mp hmem with h1 | h2
            · exact hA2.2.2.1 h1
            · rw [List.map_cons, List.map_nil, List.mem_singleton] at h2
              exact hB0.2.2.2 o2 (List.mem_cons_of_mem o ho2) hm2 h2.symm
          · intro hmem
            apply hA2.2.2.2
            rw [hEN]
            exact List.mem_cons_of_mem _ hmem)
        (by
          intro nm hnm
          have hBn := hB nm (by rw [hEN]; exact List.mem_cons_of_mem _ hnm)
          have hnm0 : nm ≠ (get_empty_name o.name counts).1 :=
            fun he => hCc.1 (he ▸ hnm)
          refine ⟨?_, ?_, ?_, ?_⟩
          · rw [List.map_append]
            intro hmem
            rcases List.mem_append.mp hmem with h1 | h2
            · exact hBn.1 h1
            · rw [List.map_cons, List.map_nil, List.mem_singleton] at h2
              exact hBn.2.2.2 o (List.mem_cons_self o rest) ho h2
          · intro hmem
            exact hBn.2.1 (by rw [List.map_cons]; exact List.mem_cons_of_mem _ hmem)
          · rw [List.map_append]
            intro hmem
            rcases List.mem_append.mp hmem with h1 | h2
            · exact hBn.2.2.1 h1
            · rw [List.map_cons, List.map_nil, List.mem_singleton] at h2
              exact hnm0 h2
          · intro o2 ho2 hm2
            exact hBn.2.2.2 o2 (List.mem_cons_of_mem o ho2) hm2)
        hCc.2 hDc.2
      simp only [List.length_append, List.length_singleton] at hrec
      rw [hrec]
      simp [renameIfMesh, ho, mkEmpties, mkRepls]
    · rw [if_neg ho]
      have hEN : mkEmptyNames (o :: rest) counts = mkEmptyNames rest counts := by
        simp only [mkEmptyNames, if_neg ho]
      have hDc : o.name ∉ rest.map (fun x => x.name) ∧
          (rest.map (fun x => x.name)).Nodup := by
        rw [List.map_cons] at hD
        exact List.nodup_cons.mp hD
      rw [show pre ++ (o :: rest) ++ post = (pre ++ [o]) ++ rest ++ post from by simp]
      have hrec := replace_pass_char rest (pre ++ [o]) post counts counter repl0
        (by
          intro o2 ho2 hm2
          have hA2 := hA o2 (List.mem_cons_of_mem o ho2) hm2
          have h21 : tempName o2 ∉ o.name :: rest.map (fun x => x.name) := by
            have h := hA2.2.1
            rw [List.map_cons] at h
            exact h
          refine ⟨?_, ?_, hA2.2.2.1, ?_⟩
          · rw [List.map_append]
            intro hmem
            rcases List.mem_append.mp hmem with h1 | h2
            · exact hA2.1 h1
            · rw [List.map_cons, List.map_nil, List.mem_singleton] at h2
              exact h21 (h2 ▸ List.mem_cons_self _ _)
          · intro hmem
            exact h21 (List.mem_cons_of_mem _ hmem)
          · intro hmem
            apply hA2.2.2.2
            rw [hEN]
            exact hmem)
        (by
          intro nm hnm
          have hBn := hB nm (by rw [hEN]; exact hnm)
          have h21 : nm ∉ o.name :: rest.map (fun x => x.name) := by
            have h := hBn.2.1
            rw [List.map_cons] at h
            exact h
          refine ⟨?_, ?_, hBn.2.2.1, ?_⟩
          · rw [List.map_append]
            intro hmem
            rcases List.mem_append.mp hmem with h1 | h2
            · exact hBn.1 h1
            · rw [List.map_cons, List.map_nil, List.mem_singleton] at h2
              exact h21 (h2 ▸ List.mem_cons_self _ _)
          · intro hmem
            exact h21 (List.mem_cons_of_mem _ hmem)
          · intro o2 ho2 hm2
            exact hBn.2.2.2 o2 (List.mem_cons_of_mem o ho2) hm2)
        (by rw [hEN] at hC; exact hC)
        hDc.2
      simp only [List.length_append, List.length_singleton] at hrec
      rw [hrec]
      simp [renameIfMesh, ho, mkEmpties, mkRepls]

/-- Correctness of the restore loop against the closed form of the
replacement pass, when no original mesh name collides with a temporary or
computed empty name: removing each empty and renaming each mesh back then
restores identity, name, type and world matrix of every object, for any
selection-only modification `g` applied in between. -/
theorem restore_pass_correct :
    ∀ (rest pre : List EObj) (counts : List (List Char × Nat)) (counter : Nat)
      (g : EObj → EObj),
      (∀ o, (g o).eid = o.eid) → (∀ o, (g o).name = o.name) →
      (∀ o, (g o).otype = o.otype) → (∀ o, (g o).world = o.world) →
      (∀ o ∈ pre, o.eid < counter) → (∀ o ∈ rest, o.eid < counter) →
      (∀ o ∈ rest, o.otype = "MESH" →
        o.name ∉ pre.map (fun x => x.name) ∧
        (∀ x ∈ rest, x.otype = "MESH" → o.name ≠ tempName x) ∧
        o.name ∉ mkEmptyNames rest counts) →
      (rest.map (fun x => x.name)).Nodup →
      (restore_pass (pre ++ rest.map (fun o => g (renameIfMesh o))
          ++ (mkEmpties rest counts counter).map g)
          (mkRepls rest pre.length counter)).map eProj
        = (pre ++ rest.map g).map eProj
  | [], pre, counts, counter, g, _, _, _, _, _, _, _, _ => by
    simp [restore_pass, mkRepls, mkEmpties]
  | o :: rest, pre, counts, counter, g, hg1, hg2, hg3, hg4, hpre, hrest, hN, hD2 => by
    have hoid : o.eid < counter := hrest o (List.mem_cons_self o rest)
    have hrid : ∀ x ∈ rest, x.eid < counter :=
      fun x hx => hrest x (List.mem_cons_of_mem o hx)
    have hDc : o.name ∉ rest.map (fun x => x.name) ∧
        (rest.map (fun x => x.name)).Nodup := by
      rw [List.map_cons] at hD2
      exact List.nodup_cons.mp hD2
    by_cases ho : o.otype = "MESH"
    · have hEN : mkEmptyNames (o :: rest) counts
          = (get_empty_name o.name counts).1
              :: mkEmptyNames rest (get_empty_name o.name counts).2 := by
        simp only [mkEmptyNames, if_pos ho]
      have hN0 := hN o (List.mem_cons_self o rest) ho
      rw [show mkRepls (o :: rest) pre.length counter
            = ⟨pre.length, counter, o.name⟩ :: mkRepls rest (pre.length + 1) (counter + 1)
          from by simp [mkRepls, ho],
        show mkEmpties (o :: rest) counts counter
            = make_empty counter (get_empty_name o.name counts).1 o
                :: mkEmpties rest (get_empty_name o.name counts).2 (counter + 1)
          from by simp [mkEmpties, ho]]
      unfold restore_pass
      rw [List.foldl_cons]
      have hfil : ((pre ++ (o :: rest).map (fun x => g (renameIfMesh x))
            ++ (make_empty counter (get_empty_name o.name counts).1 o
                :: mkEmpties rest (get_empty_name o.name counts).2 (counter + 1)).map g).filter
              (fun x => !(x.eid == counter)))
          = pre ++ (g (renameIfMesh o)
              :: rest.map (fun x => g (renameIfMesh x)))
              ++ (mkEmpties rest (get_empty_name o.name counts).2 (counter + 1)).map g := by
        rw [List.map_cons, List.map_cons, List.filter_append, List.filter_append,
          List.filter_cons, List.filter_cons]
        rw [filter_ne_eid counter pre (fun x hx => Nat.ne_of_lt (hpre x hx))]
        rw [filter_ne_eid counter (rest.map (fun x => g (renameIfMesh x)))
          (by
            intro x hx
            obtain ⟨y, hy, hyx⟩ := List.mem_map.mp hx
            have heid : x.eid = y.eid := by
              rw [← hyx, hg1]
              unfold renameIfMesh
              by_cases hym : y.otype = "MESH"
              · rw [if_pos hym]
              · rw [if_neg hym]
            rw [heid]
            exact Nat.ne_of_lt (hrid y hy))]
        rw [filter_ne_eid counter
          ((mkEmpties rest (get_empty_name o.name counts).2 (counter + 1)).map g)
          (by
            intro x hx
            obtain ⟨y, hy, hyx⟩ := List.mem_map.mp hx
            have h1 := mkEmpties_ids rest _ (counter + 1) y hy
            have heid : x.eid = y.eid := by rw [← hyx, hg1]
            omega)]
        have hgo : (g (renameIfMesh o)).eid = o.eid := by
          rw [hg1]
          unfold renameIfMesh
          rw [if_pos ho]
        have hge : (g (make_empty counter (get_empty_name o.name counts).1 o)).eid
            = counter := by rw [hg1]; rfl
        rw [if_pos (by simp [hgo]; omega), if_neg (by simp [hge])]
      rw [hfil]
      have hfree2 : o.name ∉ ((pre ++ (rest.map (fun x => g (renameIfMesh x))
          ++ (mkEmpties rest (get_empty_name o.name counts).2 (counter + 1)).map g)).map
            (fun x => x.name)) := by
        rw [List.map_append, List.map_append]
        intro hmem
        rcases List.mem_append.mp hmem with h1 | h2
        · exact hN0.1 h1
        · rcases List.mem_append.mp h2 with h3 | h4
          · obtain ⟨x, hx, hxe⟩ := List.mem_map.mp h3
            obtain ⟨y, hy, hye⟩ := List.mem_map.mp hx
            have hname : (renameIfMesh y).name = o.name := by
              rw [← hxe, ← hye, hg2]
            by_cases hym : y.otype = "MESH"
            · have htn : tempName y = o.name := by
                unfold renameIfMesh at hname
                rw [if_pos hym] at hname
                exact hname
              exact hN0.2.1 y (List.mem_cons_of_mem o hy) hym htn.symm
            · have hyn : y.name = o.name := by
                unfold renameIfMesh at hname
                rw [if_neg hym] at hname
                exact hname
              exact hDc.1 (hyn ▸ List.mem_map_of_mem _ hy)
          · obtain ⟨x, hx, hxe⟩ := List.mem_map.mp h4
            obtain ⟨y, hy, hye⟩ := List.mem_map.mp hx
            have hname : y.name = o.name := by rw [← hxe, ← hye, hg2]
            have hyn : y.name ∈ mkEmptyNames rest (get_empty_name o.name counts).2 := by
              rw [← mkEmpties_names rest (get_empty_name o.name counts).2 (counter + 1)]
              exact List.mem_map_of_mem _ hy
            apply hN0.2.2
            rw [hEN]
            exact List.mem_cons_of_mem _ (hname ▸ hyn)
      have hren : renameAt (pre ++ (g (renameIfMesh o)
            :: rest.map (fun x => g (renameIfMesh x)))
            ++ (mkEmpties rest (get_empty_name o.name counts).2 (counter + 1)).map g)
            pre.length o.name
          = pre ++ ({ g (renameIfMesh o) with name := o.name }
              :: (rest.map (fun x => g (renameIfMesh x))
                  ++ (mkEmpties rest (get_empty_name o.name counts).2 (counter + 1)).map g)) := by
        have h := renameAt_append_len pre (g (renameIfMesh o))
          (rest.map (fun x => g (renameIfMesh x))
            ++ (mkEmpties rest (get_empty_name o.name counts).2 (counter + 1)).map g) o.name
          hfree2
        simpa using h
      rw [hren]
      rw [show pre ++ ({ g (renameIfMesh o) with name := o.name }
            :: (rest.map (fun x => g (renameIfMesh x))
                ++ (mkEmpties rest (get_empty_name o.name counts).2 (counter + 1)).map g))
          = (pre ++ [{ g (renameIfMesh o) with name := o.name }])
              ++ rest.map (fun x => g (renameIfMesh x))
              ++ (mkEmpties rest (get_empty_name o.name counts).2 (counter + 1)).map g
        from by simp,
        show pre.length + 1 = (pre ++ [{ g (renameIfMesh o) with name := o.name }]).length
          from by simp]
      have hrec := restore_pass_correct rest
        (pre ++ [{ g (renameIfMesh o) with name := o.name }])
        (get_empty_name o.name counts).2 (counter + 1) g hg1 hg2 hg3 hg4
        (by
          intro x hx
          rcases List.mem_append.mp hx with hx1 | hx2
          · have := hpre x hx1
            omega
          · rw [List.mem_singleton] at hx2
            subst hx2
            have heid : ({ g (renameIfMesh o) with name := o.name } : EObj).eid = o.eid := by
              show (g (renameIfMesh o)).eid = o.eid
              rw [hg1]
              unfold renameIfMesh
              rw [if_pos ho]
            omega)
        (by intro x hx; have := hrid x hx; omega)
        (by
          intro o2 ho2 hm2
          have hN2 := hN o2 (List.mem_cons_of_mem o ho2) hm2
          refine ⟨?_, ?_, ?_⟩
          · rw [List.map_append]
            intro hmem
            rcases List.mem_append.mp hmem with h1 | h2
            · exact hN2.1 h1
            · rw [List.map_cons, List.map_nil, List.mem_singleton] at h2
              exact hDc.1 (h2 ▸ List.mem_map_of_mem _ ho2)
          · intro x hx hmx
            exact hN2.2.1 x (List.mem_cons_of_mem o hx) hmx
          · intro hmem
            apply hN2.2.2
            rw [hEN]
            exact List.mem_cons_of_mem _ hmem)
        hDc.2
      unfold restore_pass at hrec
      rw [hrec]
      have hproj : eProj { g (renameIfMesh o) with name := o.name } = eProj (g o) := by
        unfold eProj
        have he : ({ g (renameIfMesh o) with name := o.name } : EObj).eid = (g o).eid := by
          show (g (renameIfMesh o)).eid = (g o).eid
          rw [hg1, hg1]
          unfold renameIfMesh
          rw [if_pos ho]
        have ht : ({ g (renameIfMesh o) with name := o.name } : EObj).otype = (g o).otype := by
          show (g (renameIfMesh o)).otype = (g o).otype
          rw [hg3, hg3]
          unfold renameIfMesh
          rw [if_pos ho]
        have hw : ({ g (renameIfMesh o) with name := o.name } : EObj).world = (g o).world := by
          show (g (renameIfMesh o)).world = (g o).world
          rw [hg4, hg4]
          unfold renameIfMesh
          rw [if_pos ho]
        rw [he, ht, hw, hg2]
      simp [hproj]
    · have hEN : mkEmptyNames (o :: rest) counts = mkEmptyNames rest counts := by
        simp only [mkEmptyNames, if_neg ho]
      rw [show mkRepls (o :: rest) pre.length counter
            = mkRepls rest (pre.length + 1) counter
          from by simp [mkRepls, ho],
        show mkEmpties (o :: rest) counts counter
            = mkEmpties rest counts counter
          from by simp [mkEmpties, ho]]
      have hmap : (o :: rest).map (fun x => g (renameIfMesh x))
          = g o :: rest.map (fun x => g (renameIfMesh x)) := by
        rw [List.map_cons]
        congr 1
        unfold renameIfMesh
        rw [if_neg ho]
      rw [hmap,
        show pre ++ (g o :: rest.map (fun x => g (renameIfMesh x)))
              ++ (mkEmpties rest counts counter).map g
            = (pre ++ [g o]) ++ rest.map (fun x => g (renameIfMesh x))
                ++ (mkEmpties rest counts counter).map g
          from by simp,
        show pre.length + 1 = (pre ++ [g o]).length from by simp]
      have hrec := restore_pass_correct rest (pre ++ [g o]) counts counter g hg1 hg2 hg3 hg4
        (by
          intro x hx
          rcases List.mem_append.mp hx with hx1 | hx2
          · exact hpre x hx1
          · rw [List.mem_singleton] at hx2
            subst hx2
            rw [hg1]
            exact hoid)
        hrid
        (by
          intro o2 ho2 hm2
          have hN2 := hN o2 (List.mem_cons_of_mem o ho2) hm2
          refine ⟨?_, ?_, ?_⟩
          · rw [List.map_append]
            intro hmem
            rcases List.mem_append.mp hmem with h1 | h2
            · exact hN2.1 h1
            · rw [List.map_cons, List.map_nil, List.mem_singleton] at h2
              have h2n : o2.name = o.name := by rw [h2, hg2]
              exact hDc.1 (h2n ▸ List.mem_map_of_mem _ ho2)
          · intro x hx hmx
            exact hN2.2.1 x (List.mem_cons_of_mem o hx) hmx
          · intro hmem
            apply hN2.2.2
            rw [hEN]
            exact hmem)
        hDc.2
      rw [hrec]
      simp

/-- The net effect of deselect-all followed by selecting empties and
cameras, as a single per-object function. -/
def selReset (o : EObj) : EObj :=
  if o.otype = "EMPTY" ∨ o.otype = "CAMERA" then { o with selected := true }
  else { o with selected := false }

theorem sel_passes_eq_map (l : List EObj) :
    select_empties_cameras (deselect_all_e l) = l.map selReset := by
  unfold select_empties_cameras deselect_all_e
  rw [List.map_map]
  apply List.map_congr_left
  intro a _
  by_cases ha : a.otype = "EMPTY" ∨ a.otype = "CAMERA"
  · simp [selReset, ha]
  · simp [selReset, ha]

theorem selReset_eid (o : EObj) : (selReset o).eid = o.eid := by
  unfold selReset
  by_cases h : o.otype = "EMPTY" ∨ o.otype = "CAMERA"
  · rw [if_pos h]
  · rw [if_neg h]

theorem selReset_name (o : EObj) : (selReset o).name = o.name := by
  unfold selReset
  by_cases h : o.otype = "EMPTY" ∨ o.otype = "CAMERA"
  · rw [if_pos h]
  · rw [if_neg h]

theorem selReset_otype (o : EObj) : (selReset o).otype = o.otype := by
  unfold selReset
  by_cases h : o.otype = "EMPTY" ∨ o.otype = "CAMERA"
  · rw [if_pos h]
  · rw [if_neg h]

theorem selReset_world (o : EObj) : (selReset o).world = o.world := by
  unfold selReset
  by_cases h : o.otype = "EMPTY" ∨ o.otype = "CAMERA"
  · rw [if_pos h]
  · rw [if_neg h]

/-- Freedom from name collisions: no two objects share a name, no object
name coincides with the temporary "_original" name of a mesh or with a
computed empty name, the computed empty names are distinct, and no computed
empty name coincides with a temporary mesh name.  Under these conditions
Blender unique-name enforcement never alters a requested name during the
run. -/
def collision_free (s : List EObj) : Prop :=
  (s.map (fun x => x.name)).Nodup ∧
  (∀ o ∈ s, o.otype = "MESH" →
    tempName o ∉ s.map (fun x => x.name) ∧
    tempName o ∉ mkEmptyNames s []) ∧
  (∀ nm ∈ mkEmptyNames s [],
    nm ∉ s.map (fun x => x.name) ∧
    ∀ o ∈ s, o.otype = "MESH" → nm ≠ tempName o) ∧
  (mkEmptyNames s []).Nodup

/-- C5: whenever `execute_empties` finishes on a scene free of name
collisions, the final object list projects onto the original one object for
object: every mesh bears its original name again, identities, types and
world matrices are unchanged, and every temporary empty is gone. -/
theorem export_empties_restores (saved : Bool) (s : List EObj)
    (hcf : collision_free s)
    (hfin : (execute_empties saved s).1 = OpResult.finished) :
    ((execute_empties saved s).2.1).map eProj = s.map eProj := by
  cases saved with
  | false => simp [execute_empties] at hfin
  | true =>
    obtain ⟨hD, hA, hB, hC⟩ := hcf
    have heq : (execute_empties true s).2.1
        = restore_pass (select_empties_cameras (deselect_all_e
            (replace_pass s 0 s [] (maxId s + 1) []).1))
            (replace_pass s 0 s [] (maxId s + 1) []).2 := rfl
    rw [heq]
    have hchar := replace_pass_char s [] [] [] (maxId s + 1) []
      (by
        intro o ho hm
        have h := hA o ho hm
        exact ⟨List.not_mem_nil _, h.1, List.not_mem_nil _, h.2⟩)
      (by
        intro nm hnm
        have h := hB nm hnm
        exact ⟨List.not_mem_nil _, h.1, List.not_mem_nil _, h.2⟩)
      hC hD
    simp only [List.length_nil, List.nil_append, List.append_nil] at hchar
    rw [hchar, sel_passes_eq_map, List.map_append, List.map_map]
    have hrest := restore_pass_correct s [] [] (maxId s + 1) selReset
      selReset_eid selReset_name selReset_otype selReset_world
      (by intro x hx; exact absurd hx (List.not_mem_nil x))
      (by intro x hx; have := maxId_bound s x hx; omega)
      (by
        intro o ho hm
        refine ⟨List.not_mem_nil _, ?_, ?_⟩
        · intro x hx hmx hne
          exact (hA x hx hmx).1 (hne ▸ List.mem_map_of_mem _ ho)
        · intro hmem
          exact (hB o.name hmem).1 (List.mem_map_of_mem _ ho))
      hD
    simp only [List.length_nil, List.nil_append] at hrest
    have hcomp : s.map (selReset ∘ renameIfMesh)
        = s.map (fun o => selReset (renameIfMesh o)) := rfl
    rw [hcomp, hrest, List.map_map]
    apply List.map_congr_left
    intro a _
    show eProj (selReset a) = eProj a
    unfold eProj
    rw [selReset_eid, selReset_name, selReset_otype, selReset_world]

/-- A concrete scene for the empties exporter: one mesh and one camera. -/
def sampleEScene : List EObj :=
  [{ eid := 7, name := "hut_wall.001".data, otype := "MESH"
     world := { loc := (1, 2, 3), rot := (0, 0, 0), scl := (1, 1, 1) }
     parent := none, hide_viewport := false, hide_render := false
     selected := true, empty_display_type := "PLAIN_AXES", empty_display_size := 1 },
   { eid := 3, name := "icon_camera2".data, otype := "CAMERA"
     world := { loc := (5, 5, 5), rot := (0, 0, 0), scl := (1, 1, 1) }
     parent := none, hide_viewport := false, hide_render := false
     selected := false, empty_display_type := "PLAIN_AXES", empty_display_size := 1 }]

/-- Witness for C5: the concrete scene is collision free, the operator
finishes on it, and the final object list projects onto the original one. -/
theorem export_empties_restores_witness :
    collision_free sampleEScene ∧
    (execute_empties true sampleEScene).1 = OpResult.finished ∧
    ((execute_empties true sampleEScene).2.1).map eProj = sampleEScene.map eProj :=
  ⟨by unfold collision_free; decide, rfl,
    export_empties_restores true sampleEScene (by unfold collision_free; decide) rfl⟩

/-- A scene of two meshes whose names interact badly with the temporary
renames: the empty created for "x_wall" is computed as "wall_1", the name
just freed by the first rename. -/
def clashEScene : List EObj :=
  [{ eid := 1, name := "wall_1".data, otype := "MESH"
     world := { loc := (0, 0, 0), rot := (0, 0, 0), scl := (1, 1, 1) }
     parent := none, hide_viewport := false, hide_render := false
     selected := false, empty_display_type := "PLAIN_AXES", empty_display_size := 1 },
   { eid := 2, name := "x_wall".data, otype := "MESH"
     world := { loc := (0, 0, 0), rot := (0, 0, 0), scl := (1, 1, 1) }
     parent := none, hide_viewport := false, hide_render := false
     selected := false, empty_display_type := "PLAIN_AXES", empty_display_size := 1 }]

/-- C5 counterexample: on the clash scene the operator finishes, yet the
restore renames the first mesh while the live empty "wall_1" still holds
its original name, so unique-name enforcement leaves it as "wall_1.001":
the object names are NOT restored. -/
theorem export_empties_name_clash :
    (execute_empties true clashEScene).1 = OpResult.finished ∧
    ((execute_empties true clashEScene).2.1).map (fun o => o.name)
      ≠ clashEScene.map (fun o => o.name) ∧
    ((execute_empties true clashEScene).2.1).map (fun o => o.name)
      = ["wall_1.001".data, "x_wall".data] :=
  ⟨rfl, by decide, by decide⟩

end SapiensBlender
